import Mathlib

/-!
Verification development for the magiskboot_go repository.

The Go sources are shallowly embedded: bytes are `Nat` (values < 256 in
practice), Go byte slices and strings are `List Nat`, Go maps
`map[string]CpioEntry` are association lists whose insert replaces the
binding in place (Go map semantics; iteration order is only used by the
code in places where it does not affect the final state, which is noted
at each such definition).  Go runtime panics (out-of-range indexing,
out-of-range slicing) and `log.Fatalln` aborts are modelled as `Except`
errors / `Option.none`, as marked.
-/

namespace Magiskboot

/-- Bytes of an ASCII string literal (Go `[]byte(s)` for ASCII content). -/
def s2b (s : String) : List Nat := s.data.map Char.toNat

/-- Go `strings.HasPrefix` / `bytes.HasPrefix` on byte lists. -/
def hasPre (p l : List Nat) : Bool := p.isPrefixOf l

/-- Go `strings.HasSuffix` on byte lists. -/
def hasSuf (p l : List Nat) : Bool := p.isSuffixOf l

/-- Strict lexicographic byte order, Go `string <` / `cmp.Compare == -1`. -/
def lexLt : List Nat → List Nat → Bool
  | [], [] => false
  | [], _ :: _ => true
  | _ :: _, [] => false
  | a :: as, b :: bs => if a < b then true else if b < a then false else lexLt as bs

/-- Reflexive lexicographic byte order, Go `string <=`. -/
def lexLe : List Nat → List Nat → Bool
  | [], _ => true
  | _ :: _, [] => false
  | a :: as, b :: bs => if a < b then true else if b < a then false else lexLe as bs

/-- `sort.Strings` / `slices.Sort` on a key list: sorts by byte-lexicographic
order (duplicates are kept, as Go's sort keeps them). -/
def sortKeys (l : List (List Nat)) : List (List Nat) :=
  l.insertionSort (fun a b => lexLe a b = true)

/- Format registry (src/format.go). -/

def UNKNOWN : Nat := 0
def CHROMEOS : Nat := 1
def AOSP : Nat := 2
def AOSP_VENDOR : Nat := 3
def DHTB : Nat := 4
def BLOB : Nat := 5
def GZIP : Nat := 6
def ZOPFLI : Nat := 7
def XZ : Nat := 8
def LZMA : Nat := 9
def BZIP2 : Nat := 10
def LZ4 : Nat := 11
def LZ4_LEGACY : Nat := 12
def LZ4_LG : Nat := 13
def LZOP : Nat := 14
def MTK : Nat := 15
def DTB : Nat := 16
def ZIMAGE : Nat := 17

/-- `Fmt2Ext` (src/format.go:142).  Faithful to Go `switch` semantics: a
`case` with an empty body does **not** fall through to the next case's
body, so the cases `GZIP`, `LZ4` and `LZ4_LEGACY` exit the switch and hit
the trailing `return ""`. -/
def fmt2Ext (f : Nat) : String :=
  if f = GZIP then ""            -- `case GZIP:` has an empty body in Go
  else if f = ZOPFLI then ".gz"
  else if f = LZOP then ".lzo"
  else if f = XZ then ".xz"
  else if f = LZMA then ".lzma"
  else if f = BZIP2 then ".bz2"
  else if f = LZ4 then ""        -- empty body
  else if f = LZ4_LEGACY then "" -- empty body
  else if f = LZ4_LG then ".lz4"
  else ""

/-- `Fmt2Name` (src/format.go:113). -/
def fmt2Name (f : Nat) : String :=
  if f = GZIP then "gzip"
  else if f = ZOPFLI then "zopfli"
  else if f = LZOP then "lzop"
  else if f = XZ then "xz"
  else if f = LZMA then "lzma"
  else if f = BZIP2 then "bzip2"
  else if f = LZ4 then "lz4"
  else if f = LZ4_LEGACY then "lz4_legacy"
  else if f = LZ4_LG then "lz4_lg"
  else if f = DTB then "dtb"
  else if f = ZIMAGE then "zimage"
  else "raw"

/-- `Name2Fmt` (src/format.go:165).  Note: there is no `"lzop"` case. -/
def name2Fmt (n : String) : Nat :=
  if n = "gzip" then GZIP
  else if n = "zopfli" then ZOPFLI
  else if n = "xz" then XZ
  else if n = "lzma" then LZMA
  else if n = "bzip2" then BZIP2
  else if n = "lz4" then LZ4
  else if n = "lz4_legacy" then LZ4_LEGACY
  else if n = "lz4_lg" then LZ4_LG
  else UNKNOWN

/- Fstab patcher (src/unnamed/part_000). -/

/-- `verityPatterns` (src/unnamed/part_000:15). -/
def verityPatterns : List (List Nat) :=
  [s2b "verifyatboot", s2b "verify", s2b "avb_keys", s2b "avb",
   s2b "support_scfs", s2b "fsverity"]

/-- `encryptionPatterns` (src/unnamed/part_000:24). -/
def encryptionPatterns : List (List Nat) :=
  [s2b "forceencrypt", s2b "forcefdeorfbe", s2b "fileencryption"]

/-- Split a byte list on a separator byte, Go `bytes.Split` with a
one-byte separator (always returns at least one piece). -/
def splitByte (sep : Nat) (l : List Nat) : List (List Nat) :=
  match l with
  | [] => [[]]
  | c :: rest =>
    let r := splitByte sep rest
    if c = sep then [] :: r
    else match r with
      | [] => [[c]]
      | p :: ps => (c :: p) :: ps

/-- Join byte lists with a separator byte, Go `bytes.Join` with a
one-byte separator. -/
def joinByte (sep : Nat) : List (List Nat) → List Nat
  | [] => []
  | [p] => p
  | p :: ps => p ++ sep :: joinByte sep ps

/-- ASCII whitespace, the bytes `unicode.IsSpace` accepts for ASCII input
(Go `bytes.Fields`; the model covers ASCII content). -/
def isSpaceByte (c : Nat) : Bool :=
  c = 32 || c = 9 || c = 10 || c = 11 || c = 12 || c = 13

/-- Go `bytes.Fields`: split around runs of whitespace, no empty fields. -/
def fieldsOf (l : List Nat) : List (List Nat) :=
  match l with
  | [] => []
  | c :: rest =>
    let r := fieldsOf rest
    if isSpaceByte c then r
    else match rest with
      | [] => [[c]]
      | c' :: _ =>
        if isSpaceByte c' then [c] :: r
        else match r with
          | [] => [[c]]
          | f :: fs => (c :: f) :: fs

/-- One line of `patchFstab` (src/unnamed/part_000:46-89).  Faithful to the
Go code: the guard is `len(fields) < 4`, yet the flags are read from
`fields[4]`, so a line with exactly 4 fields indexes out of range and the
whole call panics (modelled as `.error`). -/
def patchFstabLine (patterns : List (List Nat)) (line : List Nat) :
    Except String (List Nat) :=
  if line = [] ∨ line.headD 0 = 35 then .ok line
  else
    let fields := fieldsOf line
    if fields.length < 4 then .ok line
    else match fields.get? 4 with
      | none => .error "panic: index out of range" -- fields[4] with 4 fields
      | some flagsField =>
        let flags := splitByte 44 flagsField
        let newFlags := flags.filter (fun f => ¬ patterns.any (hasPre · f))
        let newLine :=
          joinByte 32 [joinByte 32 (fields.take 4), joinByte 44 newFlags]
        let newLine :=
          if fields.length > 5 then newLine ++ 32 :: joinByte 32 (fields.drop 5)
          else newLine
        .ok newLine

/-- `patchFstab` (src/unnamed/part_000:42). -/
def patchFstab (content : List Nat) (patterns : List (List Nat)) :
    Except String (List Nat) := do
  let lines := splitByte 10 content
  let result ← lines.mapM (patchFstabLine patterns)
  return joinByte 10 result

/-- `PatchVerity` (src/unnamed/part_000:32). -/
def patchVerity (content : List Nat) : Except String (List Nat) :=
  patchFstab content verityPatterns

/-- `PatchEncryption` (src/unnamed/part_000:37). -/
def patchEncryption (content : List Nat) : Except String (List Nat) :=
  patchFstab content encryptionPatterns

/- Hex patcher (src/unnamed/part_000:95-141). -/

/-- Value of one ASCII hex digit, Go `encoding/hex` digit decoding. -/
def hexVal (c : Nat) : Option Nat :=
  if 48 ≤ c ∧ c ≤ 57 then some (c - 48)
  else if 97 ≤ c ∧ c ≤ 102 then some (c - 87)
  else if 65 ≤ c ∧ c ≤ 70 then some (c - 55)
  else none

/-- Go `hex.DecodeString`: pairs of hex digits; odd length or a non-hex
digit is an error. -/
def hexDecode : List Nat → Option (List Nat)
  | [] => some []
  | [_] => none
  | c1 :: c2 :: rest => do
    let h ← hexVal c1
    let l ← hexVal c2
    let r ← hexDecode rest
    return (h * 16 + l) :: r

/-- The inner full-pattern comparison of `HexPatch`
(src/unnamed/part_000:122-127): compares `from_b[j]` with `m[i+j]` for
`j = 0, 1, ...`, breaking on the first mismatch.  Accessing `m[i+j]`
beyond the mapping is a runtime panic (`none`). -/
def hexScanMatch (m : List Nat) (i : Nat) : List Nat → Nat → Option Bool
  | [], _ => some true
  | b :: bs, j =>
    match m.get? (i + j) with
    | none => none   -- panic: index out of range on the memory mapping
    | some x => if b ≠ x then some false else hexScanMatch m i bs (j + 1)

/-- Go `copy(m[i:], to_b)`: writes `min (len to_b) (len m - i)` bytes at
offset `i`; the mapping (and hence the file) never changes size. -/
def copyAt (m : List Nat) (i : Nat) (src : List Nat) : List Nat :=
  m.take i ++ src.take (m.length - i) ++ m.drop (i + src.length.min (m.length - i))

/-- The scan loop of `HexPatch` (src/unnamed/part_000:118-135), iterating
`i` over every offset of the (current) mapping; patched bytes are visible
to later iterations because the mapping is mutated in place.  `rem` counts
the iterations left (`fsize - i`, so the loop runs while `i < fsize`). -/
def hexPatchLoop (from_b to_b : List Nat) :
    Nat → Nat → List Nat → Bool → Option (List Nat × Bool)
  | 0, _, m, patched => some (m, patched)
  | rem + 1, i, m, patched =>
    match from_b.head? with
    | none => none  -- from_b[0] with an empty pattern: panic
    | some b0 =>
      match m.get? i with
      | none => none  -- unreachable: the loop bound is the mapping length
      | some mi =>
        if b0 = mi then
          match hexScanMatch m i from_b 0 with
          | none => none  -- panic propagates
          | some true => hexPatchLoop from_b to_b rem (i + 1) (copyAt m i to_b) true
          | some false => hexPatchLoop from_b to_b rem (i + 1) m patched
        else hexPatchLoop from_b to_b rem (i + 1) m patched

/-- `HexPatch` (src/unnamed/part_000:95).  `file` is the mapped content;
hex-decode failures are `log.Fatalln` aborts (`none`); note there is no
check that the two decoded patterns have equal length. -/
def hexPatch (file : List Nat) (fromS toS : String) : Option (List Nat × Bool) := do
  let from_b ← hexDecode (s2b fromS)
  let to_b ← hexDecode (s2b toS)
  hexPatchLoop from_b to_b file.length 0 file false

end Magiskboot

namespace Magiskboot

/-- Sanity example: the repository's own 4-field test line panics. -/
example : patchEncryption (s2b "a b c d") = .error "panic: index out of range" := by
  rfl

example : patchVerity (s2b "a b c d verify,x") = .ok (s2b "a b c d x") := by
  rfl

/-- Sanity: the S1 scenario of the spec (overlapping re-scan behaviour). -/
example : hexPatch (s2b "12345678901234567890") "31323334" "35363738" =
    some (s2b "56785678905678567890", true) := by rfl

/-- C5: evaluation of `Fmt2Ext` and `Name2Fmt` on every format named by the
claim.  The claim is false on the code: the Go `switch` does not fall
through, so the empty-bodied cases `GZIP`, `LZ4` and `LZ4_LEGACY` exit the
switch and return `""` instead of `".gz"` / `".lz4"`, and `Name2Fmt` has no
`"lzop"` case, returning `UNKNOWN`.  The remaining mappings are as claimed. -/
theorem c5_fmt2ext_eval :
    fmt2Ext GZIP = "" ∧ fmt2Ext ZOPFLI = ".gz" ∧ fmt2Ext LZOP = ".lzo" ∧
    fmt2Ext XZ = ".xz" ∧ fmt2Ext LZMA = ".lzma" ∧ fmt2Ext BZIP2 = ".bz2" ∧
    fmt2Ext LZ4 = "" ∧ fmt2Ext LZ4_LEGACY = "" ∧ fmt2Ext LZ4_LG = ".lz4" ∧
    name2Fmt "lzop" = UNKNOWN ∧
    name2Fmt "gzip" = GZIP ∧ name2Fmt "zopfli" = ZOPFLI ∧
    name2Fmt "xz" = XZ ∧ name2Fmt "lzma" = LZMA ∧ name2Fmt "bzip2" = BZIP2 ∧
    name2Fmt "lz4" = LZ4 ∧ name2Fmt "lz4_legacy" = LZ4_LEGACY ∧
    name2Fmt "lz4_lg" = LZ4_LG := by
  decide

/-- C9: a non-comment, non-empty line that tokenizes into exactly 4 fields
makes the fstab patcher panic (the guard is `len(fields) < 4` but the flags
are read from `fields[4]`), while lines with at most 3 fields are returned
unchanged.  The claim ("fewer than 5 fields ⇒ untouched, normal return")
is therefore violated at every 4-field line — including the 4-field line
fed by the repository's own test `TestRemovePatterns`. -/
theorem c9_four_field_line_panics :
    patchVerity (s2b "a b c d") = .error "panic: index out of range" ∧
    patchEncryption (s2b "a b c d") = .error "panic: index out of range" ∧
    patchEncryption
        (s2b "bb      bbbb          bbbbb  misc,forceencrypt=footer,whatever,blabla") =
      .error "panic: index out of range" ∧
    patchVerity (s2b "a b c") = .ok (s2b "a b c") ∧
    patchEncryption (s2b "# a b c d e f") = .ok (s2b "# a b c d e f") := by
  refine ⟨by rfl, by rfl, by rfl, by rfl, by rfl⟩

/-- C10: at the end of the mapping the scan is not total: with file
contents `"a"` and pattern `from = 61 62` (decoded `"ab"`, of which the
whole file is a strict non-empty proper prefix), `from_b[0]` matches at
offset 0 and the inner comparison reads `m[1]`, one past the mapping —
a runtime panic (`none`) instead of a boolean result. -/
theorem c10_scan_overruns_mapping :
    hexPatch (s2b "a") "6162" "0000" = none ∧
    hexDecode (s2b "6162") = some (s2b "ab") ∧
    hasPre (s2b "a") (s2b "ab") = true ∧ s2b "a" ≠ s2b "ab" := by
  refine ⟨by rfl, by rfl, by decide, by decide⟩

/-- C8 counterexample: decoded patterns of unequal length (1 byte vs
2 bytes) do **not** make `HexPatch` fail — there is no length check in the
code; on file `"1234"` with `from = "31"`, `to = "3535"` it patches and
returns `true` (result `"5534"`), refuting "it only succeeds when the
hex-decoded from and to byte sequences have equal length". -/
theorem c8_counterexample :
    hexPatch (s2b "1234") "31" "3535" = some (s2b "5534", true) ∧
    (hexDecode (s2b "31")).map List.length = some 1 ∧
    (hexDecode (s2b "3535")).map List.length = some 2 := by
  refine ⟨by rfl, by rfl, by rfl⟩

theorem copyAt_length (m : List Nat) (i : Nat) (src : List Nat) :
    (copyAt m i src).length = m.length := by
  simp only [copyAt, List.length_append, List.length_take, List.length_drop,
    Nat.min_def]
  split_ifs <;> omega

theorem hexPatchLoop_length (f t : List Nat) :
    ∀ (rem i : Nat) (m : List Nat) (p : Bool) (r : List Nat × Bool),
      hexPatchLoop f t rem i m p = some r → r.1.length = m.length := by
  intro rem
  induction rem with
  | zero =>
    intro i m p r h
    simp only [hexPatchLoop] at h
    cases h
    rfl
  | succ n ih =>
    intro i m p r h
    simp only [hexPatchLoop] at h
    split at h
    · exact Option.noConfusion h
    · split at h
      · exact Option.noConfusion h
      · split at h
        · split at h
          · exact Option.noConfusion h
          · rw [← copyAt_length m i t]
            exact ih _ _ _ _ h
          · exact ih _ _ _ _ h
        · exact ih _ _ _ _ h

/-- C8 amended: `HexPatch` never changes the size of the file (every
returned mapping has the length of the input), but it performs no
length-equality check on the decoded patterns: with unequal decoded
lengths it still patches (truncating the write at end of file) and
returns `true` whenever a match occurred (see `c8_counterexample`). -/
theorem c8_amended_length_preserved (file : List Nat) (fromS toS : String)
    (r : List Nat × Bool) (h : hexPatch file fromS toS = some r) :
    r.1.length = file.length := by
  unfold hexPatch at h
  simp only [bind, Option.bind_eq_some] at h
  obtain ⟨fb, _, tb, _, hloop⟩ := h
  exact hexPatchLoop_length fb tb file.length 0 file false r hloop

/-- Witness for `c8_amended_length_preserved` at the S1 test input. -/
theorem c8_amended_witness :
    (s2b "56785678905678567890").length = (s2b "12345678901234567890").length :=
  c8_amended_length_preserved (s2b "12345678901234567890") "31323334" "35363738"
    (s2b "56785678905678567890", true) (by rfl)

/- Cpio archive engine (src/patch_test.go, second segment). -/

def S_IFMT : Nat := 0o170000
def S_IFREG : Nat := 0o100000
def S_IFDIR : Nat := 0o040000
def S_IFLNK : Nat := 0o120000
def S_IFBLK : Nat := 0o060000
def S_IFCHR : Nat := 0o020000

/-- Backward scan of Go `path.Clean`'s `..` case: starting at `w`, walk
down while `w > dotdot` and `out[w] ≠ '/'`. -/
def btScan (out : List Nat) (dotdot : Nat) : Nat → Nat
  | 0 => 0
  | w + 1 =>
    if dotdot < w + 1 ∧ out.getD (w + 1) 0 ≠ 47 then btScan out dotdot w
    else w + 1

/-- Main loop of Go `path.Clean` (invoked by `norm_path`,
src/patch_test.go:270).  `r` is the read index, `out` the output buffer,
`dotdot` the backtrack limit; `fuel` bounds the iterations (every step
advances `r`, so `p.length + 1` fuel is never exhausted). -/
def cleanLoop (p : List Nat) (rooted : Bool) : Nat → Nat → List Nat → Nat → List Nat
  | 0, _, out, _ => out
  | fuel + 1, r, out, dotdot =>
    if r < p.length then
      let pc := p.getD r 0
      if pc = 47 then cleanLoop p rooted fuel (r + 1) out dotdot
      else if pc = 46 ∧ (r + 1 = p.length ∨ p.getD (r + 1) 0 = 47) then
        cleanLoop p rooted fuel (r + 1) out dotdot
      else if pc = 46 ∧ p.getD (r + 1) 0 = 46 ∧
          (r + 2 = p.length ∨ p.getD (r + 2) 0 = 47) then
        if dotdot < out.length then
          cleanLoop p rooted fuel (r + 2)
            (out.take (btScan out dotdot (out.length - 1))) dotdot
        else if ¬ rooted then
          let out' := (if 0 < out.length then out ++ [47] else out) ++ [46, 46]
          cleanLoop p rooted fuel (r + 2) out' out'.length
        else cleanLoop p rooted fuel (r + 2) out dotdot
      else
        let out' :=
          if (rooted ∧ out.length ≠ 1) ∨ (¬ rooted ∧ out.length ≠ 0) then out ++ [47]
          else out
        let comp := (p.drop r).takeWhile (· ≠ 47)
        cleanLoop p rooted fuel (r + comp.length) (out' ++ comp) dotdot
    else out

/-- Go `path.Clean` on byte lists. -/
def pathClean (p : List Nat) : List Nat :=
  if p = [] then [46]
  else
    let rooted := p.getD 0 0 = 47
    let res :=
      if rooted then cleanLoop p true (p.length + 1) 1 [47] 1
      else cleanLoop p false (p.length + 1) 0 [] 0
    if res.length = 0 then [46] else res

/-- `norm_path` (src/patch_test.go:270): clean, then strip all leading
slashes (`strings.TrimLeft(…, "/")`). -/
def normPath (p : List Nat) : List Nat := (pathClean p).dropWhile (· = 47)

/-- `CpioEntry` (src/patch_test.go:236). -/
structure CpioEntry where
  mode : Nat
  uid : Nat
  gid : Nat
  rdevMajor : Nat
  rdevMinor : Nat
  data : List Nat
  deriving DecidableEq, Repr

/-- Go zero value of `CpioEntry` (what indexing a map at a missing key
yields). -/
instance : Inhabited CpioEntry := ⟨⟨0, 0, 0, 0, 0, []⟩⟩

/-- `Cpio` (src/patch_test.go:228): the entry map is an association list
with Go map semantics (insert replaces in place; the list order stands in
for Go's arbitrary map iteration order, which the code only uses where the
final state does not depend on it). -/
structure Cpio where
  entries : List (List Nat × CpioEntry)
  keys : List (List Nat)
  deriving DecidableEq

def alistLookup : List (List Nat × CpioEntry) → List Nat → Option CpioEntry
  | [], _ => none
  | (k, v) :: rest, key => if k = key then some v else alistLookup rest key

def alistInsert : List (List Nat × CpioEntry) → List Nat → CpioEntry →
    List (List Nat × CpioEntry)
  | [], k, v => [(k, v)]
  | (k', v') :: rest, k, v =>
    if k' = k then (k, v) :: rest else (k', v') :: alistInsert rest k v

/-- Go map `delete`. -/
def alistErase (l : List (List Nat × CpioEntry)) (k : List Nat) :
    List (List Nat × CpioEntry) :=
  l.filter (fun q => q.1 ≠ k)

/-- `removeByValue` inside `Cpio.Rm` (src/patch_test.go:423): removes the
first occurrence only. -/
def removeByValue : List (List Nat) → List Nat → List (List Nat)
  | [], _ => []
  | x :: rest, v => if x = v then rest else x :: removeByValue rest v

/-- `Cpio.Rm` (src/patch_test.go:421).  The recursive pass ranges over the
entry map (order-independent here: every matching key is removed, and the
map's keys are distinct). -/
def cpioRm (c : Cpio) (p : List Nat) (recursive : Bool) : Cpio :=
  let path := normPath p
  let c1 :=
    if (alistLookup c.entries path).isSome then
      { entries := alistErase c.entries path,
        keys := removeByValue c.keys path }
    else c
  if recursive then
    let pre := path ++ [47]
    let dom := (c1.entries.map Prod.fst).filter (fun k => hasPre pre k)
    dom.foldl (fun acc k =>
      { entries := alistErase acc.entries k,
        keys := removeByValue acc.keys k }) c1
  else c1

/-- `Cpio.addEntry` (src/patch_test.go:519): store in the map, append the
key to `Keys` (even if it is already present) and re-sort. -/
def cpioAddEntry (c : Cpio) (key : List Nat) (e : CpioEntry) : Cpio :=
  { entries := alistInsert c.entries key e,
    keys := sortKeys (c.keys ++ [key]) }

/-- `Cpio.Mkdir` (src/patch_test.go:582). -/
def cpioMkdir (c : Cpio) (mode : Nat) (dir : List Nat) : Cpio :=
  cpioAddEntry c (normPath dir) ⟨Nat.lor mode S_IFDIR, 0, 0, 0, 0, []⟩

/-- `Cpio.Ln` (src/patch_test.go:594). -/
def cpioLn (c : Cpio) (src dst : List Nat) : Cpio :=
  cpioAddEntry c (normPath dst)
    ⟨S_IFLNK, 0, 0, 0, 0,
      if src.headD 0 = 47 then 47 :: normPath src else normPath src⟩

/-- `Cpio.Mv` (src/patch_test.go:612): fetches the entry (zero value when
missing), drops every `Keys` occurrence of the source, deletes it from the
map, and re-adds under the destination. -/
def cpioMv (c : Cpio) (src dst : List Nat) : Cpio :=
  let f := normPath src
  let t := normPath dst
  let entry := (alistLookup c.entries f).getD default
  let c1 : Cpio :=
    { entries := alistErase c.entries f, keys := c.keys.filter (· ≠ f) }
  cpioAddEntry c1 t entry

/-- `Cpio.Exists` (src/patch_test.go:515): raw membership in `Keys`. -/
def cpioExistsP (c : Cpio) (path : List Nat) : Bool := c.keys.contains path

/-- `Cpio.Patch` (src/patch_test.go:781).  The booleans are
`CheckEnv("KEEPVERITY")` / `CheckEnv("KEEPFORCEENCRYPT")` (true iff the
variable's value is exactly "true").  The loop iterates the key list; the
only in-loop mutation is the removal of `verity_key` (never revisited), so
folding over the initial key list is effect-equivalent to Go's slice
iteration.  Crucially, Go's `entry := c.Entries[name]` copies the struct:
the patched `entry.Data` is never stored back into the map, so only panics
from the patchers and the `verity_key` removal are observable. -/
def cpioPatch (keepVerity keepForceEncrypt : Bool) (c : Cpio) :
    Except String Cpio :=
  c.keys.foldlM (fun acc name => do
    let entry := (alistLookup acc.entries name).getD default
    let fstab := (!keepVerity || !keepForceEncrypt) &&
      (Nat.land entry.mode S_IFMT == S_IFREG) &&
      !hasPre (s2b ".backup") name && !hasPre (s2b "twrp") name &&
      !hasPre (s2b "recovery") name && hasPre (s2b "fstab") name
    let data1 ← if !keepVerity && fstab then patchVerity entry.data
                else .ok entry.data
    let _ ← if !keepForceEncrypt && fstab then patchEncryption data1
            else .ok data1
    if !keepVerity && !fstab && (name = s2b "verity_key" : Bool) then
      return cpioRm acc (s2b "verity_key") false
    else
      return acc) c

/-- `Cpio.Test` (src/patch_test.go:811). -/
def cpioTest (c : Cpio) : Nat :=
  if [s2b "sbin/launch_daemonsu.sh", s2b "sbin/su", s2b "init.xposed.rc",
      s2b "boot/sbin/launch_daemonsu.sh"].any c.keys.contains then 2
  else if [s2b ".backup/.magisk", s2b "init.magisk.rc",
      s2b "overlay/init.magisk.rc"].any c.keys.contains then 1
  else 0

/-- Body of the collection loop of `Cpio.Restore`
(src/patch_test.go:838-858).  `unxzOk d` abstracts whether the external xz
reader accepts `d` as an xz stream (`entry.Decompress()`; on success the
Go helper `_unxz` reads zero bytes into an empty destination slice, so the
data becomes empty). -/
def restoreStep (unxzOk : List Nat → Bool) (c : Cpio)
    (acc : List (List Nat × CpioEntry) × List Nat) (name : List Nat) :
    List (List Nat × CpioEntry) × List Nat :=
  let entry := (alistLookup c.entries name).getD default
  if hasPre (s2b ".backup/") name then
    if name = s2b ".backup/.rmlist" then (acc.1, acc.2 ++ entry.data)
    else if name ≠ s2b ".backup/.magisk" then
      if hasSuf (s2b ".xz") name ∧ (Nat.land entry.mode S_IFMT = S_IFREG) ∧
          unxzOk entry.data = true then
        (alistInsert acc.1 ((name.drop 8).take (name.length - 11))
          { entry with data := [] }, acc.2)
      else (alistInsert acc.1 (name.drop 8) entry, acc.2)
    else acc
  else acc

/-- `Cpio.Restore` (src/patch_test.go:834).  Note the collection loop does
not remove the `.backup/…` entries it collects; only the exact `.backup`
entry is removed afterwards; and the empty branch clears the entry map but
leaves `Keys` untouched. -/
def cpioRestore (unxzOk : List Nat → Bool) (c : Cpio) : Cpio :=
  let collected := c.keys.foldl (restoreStep unxzOk c) ([], [])
  let c1 := cpioRm c (s2b ".backup") false
  if collected.2 = [] ∧ collected.1 = [] then { c1 with entries := [] }
  else
    let c2 := (splitByte 0 collected.2).foldl
      (fun acc rm => if rm ≠ [] then cpioRm acc rm false else acc) c1
    { entries := collected.1.foldl (fun E q => alistInsert E q.1 q.2) c2.entries,
      keys := sortKeys (c2.keys ++ collected.1.map Prod.fst) }

/-- `CpioEntry.Compress` (src/patch_test.go:737): returns false for
non-regular entries; for regular entries the xz writer writes into a local
buffer that `_xz` never copies back into `compressed`, so the entry's data
becomes the still-empty slice and the method returns true. -/
def entryCompress (e : CpioEntry) : Option CpioEntry :=
  if Nat.land e.mode S_IFMT = S_IFREG then some { e with data := [] } else none

/-- `backupFunc` (src/patch_test.go:906): computes the `.backup/<name>`
path only for the log line — the entry is stored under the plain `name`. -/
def backupStep (skip : Bool) (acc : List (List Nat × CpioEntry) × List Nat)
    (name : List Nat) (entry : CpioEntry) :
    List (List Nat × CpioEntry) × List Nat :=
  let entry' := if skip then entry else (entryCompress entry).getD entry
  (alistInsert acc.1 name entry', acc.2)

/-- `recordFunc` (src/patch_test.go:916): appends `name ++ "\x00"` to the
rm-list. -/
def recordStep (acc : List (List Nat × CpioEntry) × List Nat)
    (name : List Nat) : List (List Nat × CpioEntry) × List Nat :=
  (acc.1, acc.2 ++ name ++ [0])

/-- Three-way merge loop of `Cpio.Backup` (src/patch_test.go:922-955),
walking the two sorted key sequences in lockstep.  `fuel` bounds the
iterations (each step consumes one key from either side). -/
def mergeLoop (oents cents : List (List Nat × CpioEntry)) (skip : Bool) :
    Nat → List (List Nat) → List (List Nat) →
    List (List Nat × CpioEntry) × List Nat →
    List (List Nat × CpioEntry) × List Nat
  | 0, _, _, acc => acc
  | fuel + 1, ls0, rs0, acc =>
    match ls0, rs0 with
    | [], [] => acc
    | l :: ls, [] =>
      mergeLoop oents cents skip fuel ls []
        (backupStep skip acc l ((alistLookup oents l).getD default))
    | [], r :: rs =>
      mergeLoop oents cents skip fuel [] rs (recordStep acc r)
    | l :: ls, r :: rs =>
      if lexLt l r then
        mergeLoop oents cents skip fuel ls (r :: rs)
          (backupStep skip acc l ((alistLookup oents l).getD default))
      else if l = r then
        let le := (alistLookup oents l).getD default
        let re := (alistLookup cents r).getD default
        if re.data = le.data then mergeLoop oents cents skip fuel ls rs acc
        else mergeLoop oents cents skip fuel ls rs (backupStep skip acc l le)
      else mergeLoop oents cents skip fuel (l :: ls) rs (recordStep acc r)

/-- `Cpio.Backup` (src/patch_test.go:880).  `o` is the archive loaded from
the origin file (`LoadFromFile` is `LoadFromData` on the file's bytes);
the final map iteration over `backups` appends keys and inserts entries —
order-independent because the backup keys are distinct and the key list is
sorted afterwards. -/
def cpioBackup (o : Cpio) (skip : Bool) (c : Cpio) : Cpio :=
  let backups0 : List (List Nat × CpioEntry) :=
    [(s2b ".backup", ⟨S_IFDIR, 0, 0, 0, 0, []⟩)]
  let o1 := cpioRm o (s2b ".backup") true
  let c1 := cpioRm c (s2b ".backup") true
  let res := mergeLoop o1.entries c1.entries skip
    (o1.keys.length + c1.keys.length + 1) o1.keys c1.keys (backups0, [])
  let backups :=
    if res.2 ≠ [] then
      alistInsert res.1 (s2b ".backup/.rmlist") ⟨S_IFREG, 0, 0, 0, 0, res.2⟩
    else res.1
  { entries := backups.foldl (fun E q => alistInsert E q.1 q.2) c1.entries,
    keys := sortKeys (c1.keys ++ backups.map Prod.fst) }

/-- Sorted, duplicate-free view of the entry map's keys — the invariant
claimed for the key sequence. -/
abbrev keysInvariant (c : Cpio) : Prop :=
  c.keys = sortKeys (c.entries.map Prod.fst).dedup

/- Cpio serialization and parsing (src/patch_test.go:274-419). -/

/-- `align_4` (src/patch_test.go:266): `(x + 3) &^ 3`. -/
def align4 (x : Nat) : Nat := (x + 3) / 4 * 4

/-- Lowercase hex digit of a nibble (Go `%x` formatting). -/
def hexDigitChar (d : Nat) : Nat := if d < 10 then 48 + d else 87 + d

/-- Big-endian fixed-width hex digits: `hexFix k n` is the last `k` hex
digits of `n` (proof-side normal form; below `16^k` it is the full
zero-padded representation). -/
def hexFix : Nat → Nat → List Nat
  | 0, _ => []
  | k + 1, n => hexFix k (n / 16) ++ [hexDigitChar (n % 16)]

/-- Minimal big-endian hex digits of `n` (empty for 0).  The first
argument is fuel; `fuel ≥ n` always suffices because the value shrinks by
a factor of 16 at every step. -/
def hexDigits : Nat → Nat → List Nat
  | 0, _ => []
  | fuel + 1, n =>
    if n = 0 then []
    else hexDigits fuel (n / 16) ++ [hexDigitChar (n % 16)]

/-- Go `fmt.Sprintf("%08x", n)`: the minimal hex representation,
zero-padded on the left to a **minimum** width of 8.  A value of `2^32`
or more therefore widens beyond 8 digits instead of truncating. -/
def hex8 (n : Nat) : List Nat :=
  List.replicate (8 - (hexDigits n n).length) 48 ++ hexDigits n n

def hexAcc : List Nat → Nat → Option Nat
  | [], acc => some acc
  | c :: rest, acc =>
    match hexVal c with
    | some v => hexAcc rest (acc * 16 + v)
    | none => none

/-- `x8u` (src/patch_test.go:252): an 8-character hex field parsed with
`strconv.ParseUint(s, 16, 32)` (8 hex digits never exceed 32 bits, so only
a wrong length or a non-hex character errors). -/
def x8u (l : List Nat) : Option Nat :=
  if l.length = 8 then hexAcc l 0 else none

/-- Go `strings.TrimRight(s, "\x00")`. -/
def trimTrailingZeros (l : List Nat) : List Nat :=
  (l.reverse.dropWhile (fun c => c == 0)).reverse

/-- One record header as `Dump` formats it (src/patch_test.go:377-392):
magic `070701` then 13 fields of `%08x` — ino, mode, uid, gid, nlink 1,
mtime 0, filesize, devmajor 0, devminor 0, rdevmajor, rdevminor, namesize,
chksum 0.  It is 110 bytes exactly when every field is below `2^32`. -/
def dumpRecordHeader (ino mode uid gid fsz rM rm ns : Nat) : List Nat :=
  s2b "070701" ++
    ([ino, mode, uid, gid, 1, 0, fsz, 0, 0, rM, rm, ns, 0].map hex8).flatten

/-- Proof-side normal form of the record header: every field rendered at
exactly 8 hex digits — the shape `dumpRecordHeader` takes when all its
fields are below `2^32`. -/
def hdrFix (ino mode uid gid fsz rM rm ns : Nat) : List Nat :=
  s2b "070701" ++
    ([ino, mode, uid, gid, 1, 0, fsz, 0, 0, rM, rm, ns, 0].map
      (hexFix 8)).flatten

/-- Record loop plus trailer of `Cpio.Dump` (src/patch_test.go:365-417):
records in `Keys` order with inode numbers from 300000, names
NUL-terminated, 4-byte alignment padding (zeros) after the name and after
the data; finally the `TRAILER!!!` record (mode `0o755`, namesize 11)
followed by alignment padding. -/
def dumpLoop (c : Cpio) : List (List Nat) → Nat → Nat → List Nat
  | [], inode, pos =>
    dumpRecordHeader inode 0o755 0 0 0 0 0 11 ++
      (s2b "TRAILER!!!" ++ ([0] ++
        List.replicate (align4 (pos + 121) - (pos + 121)) 0))
  | name :: rest, inode, pos =>
    let e := (alistLookup c.entries name).getD default
    let p1 := pos + 110 + (name.length + 1)
    let p2 := align4 p1 + e.data.length
    dumpRecordHeader inode e.mode e.uid e.gid e.data.length e.rdevMajor
        e.rdevMinor (name.length + 1) ++
      (name ++ ([0] ++ (List.replicate (align4 p1 - p1) 0 ++
        (e.data ++ (List.replicate (align4 p2 - p2) 0 ++
          dumpLoop c rest (inode + 1) (align4 p2))))))

/-- `Cpio.Dump` (src/patch_test.go:365), as the byte list written to the
output file. -/
def cpioDump (c : Cpio) : List Nat := dumpLoop c c.keys 300000 0

/-- Go `bytes.Index`: first index of `pat` as a contiguous substring. -/
def indexOfSub (pat : List Nat) : List Nat → Option Nat
  | [] => if pat.isPrefixOf ([] : List Nat) then some 0 else none
  | c :: t =>
    if pat.isPrefixOf (c :: t) then some 0
    else (indexOfSub pat t).map (· + 1)

/-- Loop of `Cpio.LoadFromData` (src/patch_test.go:274-324).  `rest` is
`data[pos:]` and `pos` the absolute offset (used for the alignment
arithmetic).  Go's out-of-range slicing panics are `.error "panic: …"`;
`fuel` bounds the iterations (each consumes at least 110 bytes, so
`data.length + 1` is never exhausted). -/
def parseLoop : Nat → List Nat → Nat → List (List Nat) →
    List (List Nat × CpioEntry) →
    Except String (List (List Nat) × List (List Nat × CpioEntry))
  | 0, _, _, _, _ => .error "fuel exhausted"
  | fuel + 1, rest, pos, keys, ents =>
    if rest.isEmpty then .ok (keys, ents)
    else
      if rest.length < 110 then .error "panic: slice bounds out of range"
      else
        let hdr := rest.take 110
        if hdr.take 6 ≠ s2b "070701" then .error "invalid cpio magic"
        else
          match x8u ((hdr.drop 94).take 8) with
          | none => .error "bad cpio header"
          | some nameSz =>
            if rest.length < 110 + nameSz then
              .error "panic: slice bounds out of range"
            else
              let name := trimTrailingZeros ((rest.drop 110).take nameSz)
              let pos2 := pos + 110 + nameSz
              let posA := align4 pos2
              let skipA := 110 + nameSz + (posA - pos2)
              let restA := rest.drop skipA
              if name = s2b "." ∨ name = s2b ".." then
                parseLoop fuel restA posA keys ents
              else if name = s2b "TRAILER!!!" then
                if rest.length < skipA then
                  .error "panic: slice bounds out of range"
                else
                  match indexOfSub (s2b "070701") restA with
                  | none => .ok (keys, ents)
                  | some i => parseLoop fuel (restA.drop i) (posA + i) keys ents
              else
                let fileSz := (x8u ((hdr.drop 54).take 8)).getD 0
                if rest.length < skipA + fileSz then
                  .error "panic: slice bounds out of range"
                else
                  let entry : CpioEntry :=
                    ⟨(x8u ((hdr.drop 14).take 8)).getD 0,
                     (x8u ((hdr.drop 22).take 8)).getD 0,
                     (x8u ((hdr.drop 30).take 8)).getD 0,
                     (x8u ((hdr.drop 78).take 8)).getD 0,
                     (x8u ((hdr.drop 86).take 8)).getD 0,
                     restA.take fileSz⟩
                  let posB := posA + fileSz
                  let posC := align4 posB
                  parseLoop fuel (restA.drop (fileSz + (posC - posB))) posC
                    (keys ++ [name]) (alistInsert ents name entry)

/-- `Cpio.LoadFromData` (src/patch_test.go:274) on a fresh `NewCpio()`. -/
def cpioLoadFromData (data : List Nat) : Except String Cpio :=
  (parseLoop (data.length + 1) data 0 [] []).map fun r => ⟨r.2, r.1⟩

/- Payload extractor (src/payload.go). -/

/-- Modelled from the spec: operation type of the protobuf manifest
(`magiskboot/chromeos_update_engine` is generated code absent from src/);
§3 lists `REPLACE, REPLACE_BZ, REPLACE_XZ, ZERO, …` with every other type
an error for this extractor. -/
inductive OpType where
  | REPLACE
  | REPLACE_BZ
  | REPLACE_XZ
  | ZERO
  | OTHER
  deriving DecidableEq, Repr

/-- Modelled from the spec: a destination extent
`{start_block, num_blocks}`; proto2 optional fields, the Go getters
default to 0. -/
structure PayloadExtent where
  startBlock : Option Nat
  numBlocks : Option Nat
  deriving DecidableEq, Repr

/-- Modelled from the spec: an install operation
`{type, data_offset, data_length, dst_extents}`. -/
structure InstallOperation where
  opType : OpType
  dataOffset : Option Nat
  dataLength : Option Nat
  dstExtents : List PayloadExtent
  deriving DecidableEq, Repr

/-- Modelled from the spec: a partition update with `partition_name` and
its operations. -/
structure PartitionUpdate where
  partitionName : Option String
  operations : List InstallOperation
  deriving DecidableEq, Repr

/-- Modelled from the spec: the `DeltaArchiveManifest` fields the
extractor reads (`block_size` defaults to 4096 in the Chromium
update-engine schema, `minor_version` to 0). -/
structure DeltaArchiveManifest where
  blockSize : Option Nat
  minorVersion : Option Nat
  partitions : List PartitionUpdate

/-- A CrAU payload as the extractor sees it after the byte-level framing:
magic, big-endian version, manifest length, manifest-signature length, the
decoded manifest, and the data section.  `blob i` is the payload byte at
data-section offset `i`: the Go loop tracks `curr_data_offset` and seeks
relatively, which always lands at absolute offset `data_offset` past the
signatures (even when the uint64 subtraction wraps, the int64 cast turns
it into the matching backward seek). -/
structure Payload where
  magic : List Nat
  version : Nat
  manifestLen : Nat
  manifestSigLen : Nat
  manifest : DeltaArchiveManifest
  blob : Nat → Nat

/-- Sparse-file write at `off` (`Seek` + `Write`); unwritten offsets of
the freshly created output read as zero. -/
def writeBytes (out : Nat → Nat) (off : Nat) (buf : List Nat) : Nat → Nat :=
  fun i => if off ≤ i ∧ i < off + buf.length then buf.getD (i - off) 0 else out i

/-- The `sort.Slice` call of `doExtractBootFromPayload`
(src/payload.go:138): ascending `GetDataOffset()`.  (Go's sort is
unstable; ties between equal offsets are not exercised here.) -/
def sortOps (ops : List InstallOperation) : List InstallOperation :=
  ops.insertionSort (fun a b => a.dataOffset.getD 0 ≤ b.dataOffset.getD 0)

/-- Operation loop of `doExtractBootFromPayload` (src/payload.go:144-188).
`decomp` abstracts `DecompressToFd` (the C2 codec pipeline with its
external codecs).  Note the code takes `GetDataLength() == 0` and
`GetDataOffset() == 0` as "not found", and it indexes `GetDstExtents()[0]`
before the type switch (a panic when there are no extents). -/
def opsLoop (decomp : List Nat → Option (List Nat)) (bs : Nat)
    (blob : Nat → Nat) :
    List InstallOperation → (Nat → Nat) → Except String (Nat → Nat)
  | [], out => .ok out
  | op :: rest, out =>
    let dataLen := op.dataLength.getD 0
    if dataLen = 0 then .error "invalid payload: data length not found"
    else
      let dataOffset := op.dataOffset.getD 0
      if dataOffset = 0 then .error "invalid payload: data offset not found"
      else
        let buf := (List.range dataLen).map fun j => blob (dataOffset + j)
        match op.dstExtents.head? with
        | none => .error "panic: index out of range"
        | some ext0 =>
          let outOffset := ext0.startBlock.getD 0 * bs
          match op.opType with
          | .REPLACE => opsLoop decomp bs blob rest (writeBytes out outOffset buf)
          | .ZERO =>
            opsLoop decomp bs blob rest
              (op.dstExtents.foldl (fun o e =>
                writeBytes o (e.startBlock.getD 0 * bs)
                  (List.replicate (e.numBlocks.getD 0) 0)) out)
          | .REPLACE_BZ =>
            match decomp buf with
            | some d => opsLoop decomp bs blob rest (writeBytes out outOffset d)
            | none => .error "invalid payload: decompression failed"
          | .REPLACE_XZ =>
            match decomp buf with
            | some d => opsLoop decomp bs blob rest (writeBytes out outOffset d)
            | none => .error "invalid payload: decompression failed"
          | .OTHER => .error "invalid payload: unsupported operation type"

/-- Partition selection for an explicit name: first match
(src/payload.go:107). -/
def findNamed (ps : List PartitionUpdate) (name : String) :
    Option PartitionUpdate :=
  ps.find? (fun q => q.partitionName.getD "" = name)

/-- Partition selection without a name: the Go loop overwrites `boot` on
every match, keeping the last one (src/payload.go:90-101). -/
def lastNamed (ps : List PartitionUpdate) (name : String) :
    Option PartitionUpdate :=
  (ps.filter (fun q => q.partitionName.getD "" = name)).getLast?

/-- `doExtractBootFromPayload` (src/payload.go:26), from the decoded
manifest down; `log.Fatalln(badPayload(…))` aborts are modelled as the
same errors. -/
def doExtractBootFromPayload (decomp : List Nat → Option (List Nat))
    (p : Payload) (partitionName : String) : Except String (Nat → Nat) :=
  if p.magic ≠ s2b "CrAU" then .error "invalid payload: invalid magic"
  else if p.version ≠ 2 then
    .error ("invalid payload: unsupported version: " ++ toString p.version)
  else if p.manifestLen = 0 then .error "invalid payload: mainfest length is zero"
  else if p.manifestSigLen = 0 then
    .error "invalid payload: manifest signature length is zero"
  else if p.manifest.minorVersion.getD 0 ≠ 0 then
    .error "invalid payload: delta payloads are not supported, please use a full payload file"
  else
    let blockSize := p.manifest.blockSize.getD 4096
    let sel :=
      if partitionName = "" then
        match lastNamed p.manifest.partitions "init_boot" with
        | some q => some q
        | none => lastNamed p.manifest.partitions "boot"
      else findNamed p.manifest.partitions partitionName
    match sel with
    | none =>
      if partitionName = "" then .error "invalid payload: boot partition not found"
      else .error ("invalid payload: partition " ++ partitionName ++ " not found")
    | some partition =>
      opsLoop decomp blockSize p.blob (sortOps partition.operations) (fun _ => 0)

set_option maxRecDepth 4096 in
example : cpioLoadFromData
    (cpioDump ⟨[([97], ⟨33188, 0, 0, 0, 0, [104, 105]⟩)], [[97]]⟩) =
    .ok ⟨[([97], ⟨33188, 0, 0, 0, 0, [104, 105]⟩)], [[97]]⟩ := by rfl

example : normPath (s2b "/a/../b//c/") = s2b "b/c" := by decide
example : normPath (s2b ".backup") = s2b ".backup" := by decide
example : normPath (s2b "a") = s2b "a" := by decide

/-- C1: `Patch` never stores the patched data back.  On an archive with a
single regular `fstab` entry containing a `verify` flag, with both keep
flags false (environment variables not equal to "true"), `Patch` returns
the archive unchanged, although `PatchVerity` maps the old data to a
different value — so the patched bytes are **not** visible in the archive
afterwards: `entry := c.Entries[name]` copies the struct, and the code
never assigns back into the map. -/
theorem c1_patch_discards_fstab_edits :
    cpioPatch false false
        ⟨[(s2b "fstab", ⟨0o100644, 0, 0, 0, 0, s2b "a b c d verify,x"⟩)],
         [s2b "fstab"]⟩ =
      .ok ⟨[(s2b "fstab", ⟨0o100644, 0, 0, 0, 0, s2b "a b c d verify,x"⟩)],
         [s2b "fstab"]⟩ ∧
    patchVerity (s2b "a b c d verify,x") = .ok (s2b "a b c d x") ∧
    s2b "a b c d x" ≠ s2b "a b c d verify,x" := by
  refine ⟨by rfl, by rfl, by decide⟩

/-- C6: a mutator whose target already exists breaks the sort-unique key
invariant.  Starting from the singleton archive `{"a"}` (which satisfies
the invariant), `mkdir 0o755 "a"` appends the key again before sorting
(`addEntry` never checks for presence), leaving the duplicate key sequence
`["a", "a"]` while the map still has the single key `"a"`. -/
theorem c6_overwrite_duplicates_keys :
    keysInvariant ⟨[([97], ⟨0o40755, 0, 0, 0, 0, []⟩)], [[97]]⟩ ∧
    ¬ keysInvariant
        (cpioMkdir ⟨[([97], ⟨0o40755, 0, 0, 0, 0, []⟩)], [[97]]⟩ 0o755 [97]) ∧
    (cpioMkdir ⟨[([97], ⟨0o40755, 0, 0, 0, 0, []⟩)], [[97]]⟩ 0o755 [97]).keys =
      [[97], [97]] := by
  refine ⟨by decide, by decide, by decide⟩

/-- C7: `Restore` on an archive with no `.backup/*` entry and no
`.backup/.rmlist` clears the entry map but **not** the key sequence: on
the singleton archive `{"a"}` the result has an empty map while the key
sequence still reads `["a"]`, breaking the names-iff-entries invariant
(a subsequent `Dump` would emit a ghost record for `"a"` from the map's
zero value). -/
theorem c7_restore_leaves_stale_keys :
    (cpioRestore (fun _ => false)
        ⟨[([97], ⟨0o100644, 0, 0, 0, 0, [104]⟩)], [[97]]⟩).entries = [] ∧
    (cpioRestore (fun _ => false)
        ⟨[([97], ⟨0o100644, 0, 0, 0, 0, [104]⟩)], [[97]]⟩).keys = [[97]] ∧
    ([[97]] : List (List Nat)) ≠ [] := by
  refine ⟨by decide, by decide, by decide⟩

/- Order lemmas for the byte-lexicographic key order. -/

theorem lexLt_irrefl : ∀ l : List Nat, lexLt l l = false
  | [] => rfl
  | a :: as => by simp [lexLt, lexLt_irrefl as]

theorem lexLe_total : ∀ a b : List Nat, lexLe a b = true ∨ lexLe b a = true
  | [], _ => Or.inl rfl
  | _ :: _, [] => Or.inr rfl
  | a :: as, b :: bs => by
    by_cases hab : a < b
    · left; simp [lexLe, hab]
    · by_cases hba : b < a
      · right; simp [lexLe, hba, hab]
      · have : a = b := Nat.le_antisymm (Nat.not_lt.mp hba) (Nat.not_lt.mp hab)
        subst this
        rcases lexLe_total as bs with h | h
        · left; simp [lexLe, h]
        · right; simp [lexLe, h]

theorem lexLe_trans : ∀ a b c : List Nat,
    lexLe a b = true → lexLe b c = true → lexLe a c = true
  | [], _, _, _, _ => rfl
  | _ :: _, [], _, h, _ => by simp [lexLe] at h
  | _ :: _, _ :: _, [], _, h => by simp [lexLe] at h
  | a :: as, b :: bs, c :: cs, h1, h2 => by
    simp only [lexLe] at h1 h2 ⊢
    by_cases hab : a < b
    · by_cases hbc : b < c
      · rw [if_pos (show a < c by omega)]
      · by_cases hcb : c < b
        · rw [if_neg hbc, if_pos hcb] at h2
          exact Bool.noConfusion h2
        · rw [if_pos (show a < c by omega)]
    · by_cases hba : b < a
      · rw [if_neg hab, if_pos hba] at h1
        exact Bool.noConfusion h1
      · rw [if_neg hab, if_neg hba] at h1
        by_cases hbc : b < c
        · rw [if_pos (show a < c by omega)]
        · by_cases hcb : c < b
          · rw [if_neg hbc, if_pos hcb] at h2
            exact Bool.noConfusion h2
          · rw [if_neg hbc, if_neg hcb] at h2
            rw [if_neg (show ¬ a < c by omega), if_neg (show ¬ c < a by omega)]
            exact lexLe_trans as bs cs h1 h2

theorem lexLe_antisymm : ∀ a b : List Nat,
    lexLe a b = true → lexLe b a = true → a = b
  | [], [], _, _ => rfl
  | [], _ :: _, _, h => by simp [lexLe] at h
  | _ :: _, [], h, _ => by simp [lexLe] at h
  | a :: as, b :: bs, h1, h2 => by
    simp only [lexLe] at h1 h2
    by_cases hab : a < b
    · rw [if_neg (show ¬ b < a by omega), if_pos hab] at h2
      exact Bool.noConfusion h2
    · by_cases hba : b < a
      · rw [if_neg hab, if_pos hba] at h1
        exact Bool.noConfusion h1
      · rw [if_neg hab, if_neg hba] at h1
        rw [if_neg hba, if_neg hab] at h2
        have hab' : a = b := by omega
        subst hab'
        rw [lexLe_antisymm as bs h1 h2]

instance : IsTotal (List Nat) (fun a b => lexLe a b = true) := ⟨lexLe_total⟩
instance : IsTrans (List Nat) (fun a b => lexLe a b = true) :=
  ⟨fun a b c => lexLe_trans a b c⟩
instance : IsAntisymm (List Nat) (fun a b => lexLe a b = true) :=
  ⟨fun a b => lexLe_antisymm a b⟩

/- Association-list and prefix lemmas. -/

theorem hasPre_mono (p q l : List Nat) (h : hasPre (p ++ q) l = true) :
    hasPre p l = true := by
  simp only [hasPre, List.isPrefixOf_iff_prefix] at h ⊢
  exact (List.prefix_append p q).trans h

theorem alistLookup_eq_none (E : List (List Nat × CpioEntry)) (k : List Nat)
    (h : ∀ q ∈ E, q.1 ≠ k) : alistLookup E k = none := by
  induction E with
  | nil => rfl
  | cons q rest ih =>
    simp only [alistLookup]
    rw [if_neg (h q (List.mem_cons_self q rest))]
    exact ih fun q' hq' => h q' (List.mem_cons_of_mem q hq')

theorem alistLookup_insert_self (E : List (List Nat × CpioEntry))
    (k : List Nat) (v : CpioEntry) :
    alistLookup (alistInsert E k v) k = some v := by
  induction E with
  | nil => simp [alistInsert, alistLookup]
  | cons q rest ih =>
    by_cases hq : q.1 = k
    · simp [alistInsert, hq, alistLookup]
    · simp only [alistInsert]
      rw [if_neg hq]
      simp only [alistLookup]
      rw [if_neg hq]
      exact ih

theorem alistErase_insert (E : List (List Nat × CpioEntry)) (k : List Nat)
    (v : CpioEntry) : alistErase (alistInsert E k v) k = alistErase E k := by
  induction E with
  | nil => simp [alistInsert, alistErase]
  | cons q rest ih =>
    by_cases hq : q.1 = k
    · simp only [alistInsert]
      rw [if_pos hq]
      simp [alistErase, hq]
    · simp only [alistInsert]
      rw [if_neg hq]
      simp only [alistErase, List.filter_cons]
      rw [if_pos (by simpa using hq), if_pos (by simpa using hq)]
      simpa [alistErase] using ih

theorem alistErase_eq_self (E : List (List Nat × CpioEntry)) (k : List Nat)
    (h : ∀ q ∈ E, q.1 ≠ k) : alistErase E k = E :=
  List.filter_eq_self.mpr fun q hq => by simpa using h q hq

theorem removeByValue_orderedInsert (b : List Nat) :
    ∀ l : List (List Nat), b ∉ l →
      removeByValue (List.orderedInsert (fun a b => lexLe a b = true) b l) b = l := by
  intro l
  induction l with
  | nil => intro _; simp [List.orderedInsert, removeByValue]
  | cons k ks ih =>
    intro hb
    simp only [List.orderedInsert]
    split_ifs with hle
    · simp [removeByValue]
    · have hk : k ≠ b := fun h => hb (h ▸ List.mem_cons_self k ks)
      simp only [removeByValue]
      rw [if_neg hk, ih (fun h => hb (List.mem_cons_of_mem k h))]

theorem sortKeys_append_singleton (l : List (List Nat)) (b : List Nat)
    (hs : l.Sorted (fun a b => lexLe a b = true)) :
    sortKeys (l ++ [b]) = List.orderedInsert (fun a b => lexLe a b = true) b l := by
  have hperm : List.Perm (sortKeys (l ++ [b]))
      (List.orderedInsert (fun a b => lexLe a b = true) b l) :=
    (List.perm_insertionSort _ _).trans
      ((List.perm_append_singleton b l).trans
        ((List.perm_orderedInsert _ b l).symm))
  have h1 : List.Sorted (fun a b => lexLe a b = true) (sortKeys (l ++ [b])) :=
    List.sorted_insertionSort _ _
  have h2 : List.Sorted (fun a b => lexLe a b = true)
      (List.orderedInsert (fun a b => lexLe a b = true) b l) :=
    List.Sorted.orderedInsert b l hs
  exact List.eq_of_perm_of_sorted hperm h1 h2

/- Lemmas about backup and restore on clean archives. -/

theorem cpioRm_backup_recursive_noop (c : Cpio)
    (he : ∀ q ∈ c.entries, hasPre (s2b ".backup") q.1 = false) :
    cpioRm c (s2b ".backup") true = c := by
  have hnorm : normPath (s2b ".backup") = s2b ".backup" := by decide
  have hnone : alistLookup c.entries (s2b ".backup") = none := by
    apply alistLookup_eq_none
    intro q hq hcontra
    have := he q hq
    rw [hcontra] at this
    exact absurd this (by decide)
  have hdom : ((c.entries.map Prod.fst).filter
      (fun k => hasPre (s2b ".backup" ++ [47]) k)) = [] := by
    apply List.filter_eq_nil_iff.mpr
    intro k hk'
    obtain ⟨q, hq, rfl⟩ := List.mem_map.mp hk'
    intro hcontra
    exact absurd (hasPre_mono _ [47] _ (by simpa using hcontra))
      (by simp [he q hq])
  simp only [cpioRm, hnorm, hnone, Option.isSome_none, Bool.false_eq_true,
    if_false, if_true, hdom, List.foldl_nil]

theorem mergeLoop_self (ents : List (List Nat × CpioEntry)) (skip : Bool) :
    ∀ (fuel : Nat) (ks : List (List Nat))
      (acc : List (List Nat × CpioEntry) × List Nat),
      mergeLoop ents ents skip fuel ks ks acc = acc := by
  intro fuel
  induction fuel with
  | zero => intro ks acc; rfl
  | succ n ih =>
    intro ks acc
    cases ks with
    | nil => rfl
    | cons k ks' =>
      simp only [mergeLoop, lexLt_irrefl k, Bool.false_eq_true, if_false,
        if_pos rfl, if_true]
      exact ih ks' acc

theorem restore_collect_noop (u : List Nat → Bool) (b : Cpio) :
    ∀ (ks : List (List Nat)) (acc : List (List Nat × CpioEntry) × List Nat),
      (∀ n ∈ ks, hasPre (s2b ".backup/") n = false) →
      ks.foldl (restoreStep u b) acc = acc := by
  intro ks
  induction ks with
  | nil => intro acc _; rfl
  | cons n ks' ih =>
    intro acc hks
    simp only [List.foldl_cons]
    have hstep : restoreStep u b acc n = acc := by
      simp [restoreStep, hks n (List.mem_cons_self n ks')]
    rw [hstep]
    exact ih acc fun m hm => hks m (List.mem_cons_of_mem n hm)

/-- C2 counterexample: for the clone of the one-entry archive `{"a"}` (no
pre-existing `.backup/*` entries), `Backup(origin, skip_compress := true)`
followed by `Restore()` does **not** reproduce the origin: a clone yields
no per-entry backups and no rm-list, so `Restore` takes the branch that
clears the whole entry map — the entry `"a"` and its data are gone. -/
theorem c2_counterexample :
    alistLookup (cpioRestore (fun _ => false)
        (cpioBackup ⟨[([97], ⟨0o100644, 0, 0, 0, 0, [120]⟩)], [[97]]⟩ true
          ⟨[([97], ⟨0o100644, 0, 0, 0, 0, [120]⟩)], [[97]]⟩)).entries [97] =
      none ∧
    alistLookup ([([97], ⟨0o100644, 0, 0, 0, 0, [120]⟩)] :
        List (List Nat × CpioEntry)) [97] =
      some ⟨0o100644, 0, 0, 0, 0, [120]⟩ ∧
    ([[97]] : List (List Nat)).all (fun k => !hasPre (s2b ".backup") k) = true := by
  refine ⟨by decide, by decide, by decide⟩

/-- C2 amended: if `C` is a clone of `O` and `O` contains no entry whose
name begins with `.backup`, then `Backup(O, skip_compress := true)` adds
only the `.backup` directory entry (a clone produces no per-entry backups
and no rm-list), and the subsequent `Restore()` empties the entry map
entirely — while the stale key sequence of `O` survives in `Keys`.  The
result is not `O` (unless `O` was empty): its entry map is `[]` and its
key list is `O.keys`. -/
theorem cpioRm_exact (c : Cpio) (p : List Nat)
    (hlk : (alistLookup c.entries (normPath p)).isSome = true) :
    cpioRm c p false =
      ⟨alistErase c.entries (normPath p), removeByValue c.keys (normPath p)⟩ := by
  simp only [cpioRm, hlk, if_true, Bool.false_eq_true, if_false]

theorem c2_amended_clone_backup_restore (O : Cpio) (u : List Nat → Bool)
    (hs : O.keys.Sorted (fun a b => lexLe a b = true))
    (hk : ∀ k ∈ O.keys, hasPre (s2b ".backup") k = false)
    (he : ∀ q ∈ O.entries, hasPre (s2b ".backup") q.1 = false) :
    (cpioRestore u (cpioBackup O true O)).entries = [] ∧
    (cpioRestore u (cpioBackup O true O)).keys = O.keys := by
  have hnorm : normPath (s2b ".backup") = s2b ".backup" := by decide
  have hrm := cpioRm_backup_recursive_noop O he
  have hB : cpioBackup O true O =
      ⟨alistInsert O.entries (s2b ".backup") ⟨S_IFDIR, 0, 0, 0, 0, []⟩,
        sortKeys (O.keys ++ [s2b ".backup"])⟩ := by
    simp only [cpioBackup, hrm]
    rw [mergeLoop_self]
    rfl
  rw [hB]
  set B : Cpio :=
    ⟨alistInsert O.entries (s2b ".backup") ⟨S_IFDIR, 0, 0, 0, 0, []⟩,
      sortKeys (O.keys ++ [s2b ".backup"])⟩ with hBdef
  have hmem : ∀ n ∈ B.keys, hasPre (s2b ".backup/") n = false := by
    intro n hn
    have : n ∈ O.keys ++ [s2b ".backup"] :=
      (List.perm_insertionSort _ _).mem_iff.mp hn
    rcases List.mem_append.mp this with h | h
    · by_contra hcon
      have : hasPre (s2b ".backup") n = true := by
        apply hasPre_mono (s2b ".backup") [47] n
        have h47 : (s2b ".backup" ++ [47] : List Nat) = s2b ".backup/" := by
          decide
        rw [h47]
        simpa using hcon
      simp [hk n h] at this
    · simp only [List.mem_singleton] at h
      subst h
      decide
  have hcollect : B.keys.foldl (restoreStep u B) ([], []) = ([], []) :=
    restore_collect_noop u B B.keys ([], []) hmem
  have hbkp_not_in_keys : (s2b ".backup") ∉ O.keys := by
    intro hmem'
    have := hk _ hmem'
    exact absurd this (by decide)
  have hlk : (alistLookup B.entries (normPath (s2b ".backup"))).isSome = true := by
    rw [hnorm]
    show (alistLookup
      (alistInsert O.entries (s2b ".backup") ⟨S_IFDIR, 0, 0, 0, 0, []⟩)
      (s2b ".backup")).isSome = true
    rw [alistLookup_insert_self]
    rfl
  have hrm2 : cpioRm B (s2b ".backup") false = ⟨O.entries, O.keys⟩ := by
    rw [cpioRm_exact B _ hlk, hnorm]
    congr 1
    · show alistErase
        (alistInsert O.entries (s2b ".backup") ⟨S_IFDIR, 0, 0, 0, 0, []⟩)
        (s2b ".backup") = O.entries
      rw [alistErase_insert]
      apply alistErase_eq_self
      intro q hq hcontra
      have := he q hq
      rw [hcontra] at this
      exact absurd this (by decide)
    · show removeByValue (sortKeys (O.keys ++ [s2b ".backup"]))
        (s2b ".backup") = O.keys
      rw [sortKeys_append_singleton O.keys (s2b ".backup") hs]
      exact removeByValue_orderedInsert (s2b ".backup") O.keys hbkp_not_in_keys
  constructor
  · show (cpioRestore u B).entries = []
    simp only [cpioRestore, hcollect, hrm2]
    simp
  · show (cpioRestore u B).keys = O.keys
    simp only [cpioRestore, hcollect, hrm2]
    simp

/- C3: payload extraction. -/

theorem range_map_getD (f : Nat → Nat) (n i : Nat) (h : i < n) :
    (((List.range n).map f).getD i 0) = f i := by
  rw [List.getD_eq_getElem?_getD, List.getElem?_map, List.getElem?_range h]
  rfl

theorem replicate_getD (n i : Nat) : (List.replicate n 0).getD i 0 = 0 := by
  rw [List.getD_eq_getElem?_getD, List.getElem?_replicate]
  split_ifs <;> rfl

theorem zeroFold_preserves_low (bs l₁ : Nat) :
    ∀ (exts : List PayloadExtent) (o : Nat → Nat) (i : Nat), i < l₁ →
      (∀ e ∈ exts, l₁ ≤ e.startBlock.getD 0 * bs) →
      (exts.foldl (fun o e =>
        writeBytes o (e.startBlock.getD 0 * bs)
          (List.replicate (e.numBlocks.getD 0) 0)) o) i = o i := by
  intro exts
  induction exts with
  | nil => intro o i _ _; rfl
  | cons e es ih =>
    intro o i hi hexts
    simp only [List.foldl_cons]
    rw [ih _ i hi fun e' he' => hexts e' (List.mem_cons_of_mem e he')]
    have hoff : l₁ ≤ e.startBlock.getD 0 * bs :=
      hexts e (List.mem_cons_self e es)
    simp only [writeBytes]
    rw [if_neg (by omega)]

theorem zeroFold_keeps_high (bs l₁ : Nat) :
    ∀ (exts : List PayloadExtent) (o : Nat → Nat),
      (∀ j, l₁ ≤ j → o j = 0) → ∀ j, l₁ ≤ j →
      (exts.foldl (fun o e =>
        writeBytes o (e.startBlock.getD 0 * bs)
          (List.replicate (e.numBlocks.getD 0) 0)) o) j = 0 := by
  intro exts
  induction exts with
  | nil => intro o ho j hj; exact ho j hj
  | cons e es ih =>
    intro o ho j hj
    simp only [List.foldl_cons]
    apply ih _ _ j hj
    intro j' hj'
    simp only [writeBytes]
    split_ifs with hcond
    · exact replicate_getD _ _
    · exact ho j' hj'

/-- The 2-op payload of the C3 counterexample: a REPLACE at destination
block 0 whose `data_offset` is **present** with value 0, and a ZERO op. -/
def c3BadPayload : Payload :=
  ⟨s2b "CrAU", 2, 1, 1,
    ⟨some 4096, some 0,
      [⟨some "boot",
        [⟨.REPLACE, some 0, some 4, [⟨some 0, some 1⟩]⟩,
         ⟨.ZERO, some 8, some 4096, [⟨some 5, some 4096⟩]⟩]⟩]⟩,
    fun _ => 0⟩

/-- C3 counterexample: the extractor fails with `InvalidPayload` on an
operation whose `data_offset` is present (not missing) but zero — the code
conflates `GetDataOffset() == 0` with "not found", so the claim's "fails
… exactly when … missing" is false: here nothing is missing, yet
extraction errors instead of succeeding. -/
theorem c3_counterexample :
    doExtractBootFromPayload (fun _ => none) c3BadPayload "boot" =
      .error "invalid payload: data offset not found" ∧
    (⟨.REPLACE, some 0, some 4, [⟨some 0, some 1⟩]⟩ :
      InstallOperation).dataOffset ≠ none ∧
    (⟨.REPLACE, some 0, some 4, [⟨some 0, some 1⟩]⟩ :
      InstallOperation).dataLength ≠ none := by
  refine ⟨by rfl, by decide, by decide⟩

/-- C3 amended: for a version-2 payload whose selected partition is one
REPLACE (destination block 0) followed by one ZERO operation, where both
operations carry **present and nonzero** `data_offset`/`data_length` (the
code treats a zero value as missing, see `c3_counterexample`), with the
REPLACE's data before the ZERO's and the ZERO extents beyond the replaced
range, extraction succeeds; the first `data_length` bytes of the output
equal the REPLACE payload and everything beyond them — in particular every
ZERO extent — is zero-filled. -/
theorem c3_amended_replace_zero_extract (dc : List Nat → Option (List Nat))
    (p : Payload) (part : PartitionUpdate) (opR opZ : InstallOperation)
    (extR : PayloadExtent) (o₁ l₁ o₂ l₂ : Nat) (pname : String)
    (hmagic : p.magic = s2b "CrAU") (hver : p.version = 2)
    (hml : p.manifestLen ≠ 0) (hsl : p.manifestSigLen ≠ 0)
    (hminor : p.manifest.minorVersion.getD 0 = 0)
    (hpn : pname ≠ "")
    (hfind : p.manifest.partitions.find?
      (fun q => q.partitionName.getD "" = pname) = some part)
    (hops : part.operations = [opR, opZ])
    (hRtype : opR.opType = .REPLACE)
    (hRoff : opR.dataOffset = some o₁) (ho₁ : 0 < o₁)
    (hRlen : opR.dataLength = some l₁) (hl₁ : 0 < l₁)
    (hRhd : opR.dstExtents.head? = some extR)
    (hextR : extR.startBlock.getD 0 = 0)
    (hZtype : opZ.opType = .ZERO)
    (hZoff : opZ.dataOffset = some o₂) (ho₂ : o₁ < o₂)
    (hZlen : opZ.dataLength = some l₂) (hl₂ : 0 < l₂)
    (hZext : opZ.dstExtents ≠ [])
    (hdisj : ∀ e ∈ opZ.dstExtents,
      l₁ ≤ e.startBlock.getD 0 * p.manifest.blockSize.getD 4096) :
    ∃ out, doExtractBootFromPayload dc p pname = .ok out ∧
      (∀ i, i < l₁ → out i = p.blob (o₁ + i)) ∧
      (∀ j, l₁ ≤ j → out j = 0) := by
  have hsort : sortOps part.operations = [opR, opZ] := by
    rw [hops]
    simp only [sortOps, List.insertionSort, List.orderedInsert, hRoff, hZoff,
      Option.getD_some]
    rw [if_pos (Nat.le_of_lt ho₂)]
  obtain ⟨e0, es, hE⟩ := List.exists_cons_of_ne_nil hZext
  set bs := p.manifest.blockSize.getD 4096 with hbs
  set buf := (List.range l₁).map (fun j => p.blob (o₁ + j)) with hbuf
  have hbuflen : buf.length = l₁ := by
    rw [hbuf, List.length_map, List.length_range]
  set out1 := writeBytes (fun _ => 0) 0 buf with hout1
  set out2 := opZ.dstExtents.foldl (fun o e =>
      writeBytes o (e.startBlock.getD 0 * bs)
        (List.replicate (e.numBlocks.getD 0) 0)) out1 with hout2
  have hrun : doExtractBootFromPayload dc p pname = .ok out2 := by
    simp only [doExtractBootFromPayload]
    rw [if_neg (by rw [hmagic]; simp), if_neg (by rw [hver]; simp),
      if_neg (by simpa using hml), if_neg (by simpa using hsl),
      if_neg (by rw [hminor]; simp), if_neg hpn]
    simp only [findNamed] at hfind ⊢
    rw [hfind]
    show opsLoop dc (p.manifest.blockSize.getD 4096) p.blob
      (sortOps part.operations) (fun _ => 0) = Except.ok out2
    rw [hsort]
    simp only [opsLoop, hRlen, hRoff, hZlen, hZoff, Option.getD_some,
      hRhd, hRtype, hZtype, hE]
    rw [if_neg (by omega), if_neg (by omega), if_neg (by omega),
      if_neg (by omega)]
    simp only [List.head?_cons]
    rw [hextR, Nat.zero_mul]
    rw [← hE]
  refine ⟨out2, hrun, ?_, ?_⟩
  · intro i hi
    rw [hout2, zeroFold_preserves_low bs l₁ opZ.dstExtents out1 i hi hdisj]
    rw [hout1]
    simp only [writeBytes, Nat.zero_add]
    rw [if_pos ⟨Nat.zero_le i, by omega⟩]
    rw [Nat.sub_zero, hbuf, range_map_getD _ _ _ hi]
  · intro j hj
    rw [hout2]
    apply zeroFold_keeps_high bs l₁ opZ.dstExtents out1 _ j hj
    intro j' hj'
    rw [hout1]
    simp only [writeBytes, Nat.zero_add]
    rw [if_neg (by omega)]

/-- The 2-op payload of the C3 witness: block size 8; REPLACE of 4 bytes
from data offset 4 into block 0; ZERO of extent `{start_block 1,
num_blocks 8}` with data at offset 16. -/
def c3GoodPayload : Payload :=
  ⟨s2b "CrAU", 2, 1, 1,
    ⟨some 8, some 0,
      [⟨some "boot",
        [⟨.REPLACE, some 4, some 4, [⟨some 0, some 1⟩]⟩,
         ⟨.ZERO, some 16, some 4, [⟨some 1, some 8⟩]⟩]⟩]⟩,
    fun i => i + 1⟩

/-- Witness for `c3_amended_replace_zero_extract` at `c3GoodPayload`. -/
theorem c3_amended_witness :
    ∃ out, doExtractBootFromPayload (fun _ => none) c3GoodPayload "boot" =
        .ok out ∧
      (∀ i, i < 4 → out i = c3GoodPayload.blob (4 + i)) ∧
      (∀ j, 4 ≤ j → out j = 0) :=
  c3_amended_replace_zero_extract (fun _ => none) c3GoodPayload
    ⟨some "boot",
      [⟨.REPLACE, some 4, some 4, [⟨some 0, some 1⟩]⟩,
       ⟨.ZERO, some 16, some 4, [⟨some 1, some 8⟩]⟩]⟩
    ⟨.REPLACE, some 4, some 4, [⟨some 0, some 1⟩]⟩
    ⟨.ZERO, some 16, some 4, [⟨some 1, some 8⟩]⟩
    ⟨some 0, some 1⟩ 4 4 16 4 "boot"
    (by rfl) (by rfl) (by decide) (by decide) (by rfl) (by decide)
    (by rfl) (by rfl) (by rfl) (by rfl) (by decide) (by rfl) (by decide)
    (by rfl) (by rfl) (by rfl) (by rfl) (by decide) (by rfl) (by decide)
    (by decide) (by decide)

/- C4: cpio round-trip lemmas. -/

theorem hexFix_length (k : Nat) : ∀ n, (hexFix k n).length = k := by
  induction k with
  | zero => intro n; rfl
  | succ m ih =>
    intro n
    simp only [hexFix, List.length_append, List.length_cons, List.length_nil, ih]

theorem hexDigits_fuel : ∀ (f f' n : Nat), n ≤ f → n ≤ f' →
    hexDigits f n = hexDigits f' n := by
  intro f
  induction f with
  | zero =>
    intro f' n hf hf'
    have hn : n = 0 := by omega
    subst hn
    cases f' <;> simp [hexDigits]
  | succ g ih =>
    intro f' n hf hf'
    cases f' with
    | zero =>
      have hn : n = 0 := by omega
      subst hn
      simp [hexDigits]
    | succ g' =>
      simp only [hexDigits]
      by_cases hn : n = 0
      · rw [if_pos hn, if_pos hn]
      · rw [if_neg hn, if_neg hn,
          ih g' (n / 16) (by omega) (by omega)]

theorem hex8_pad_eq_hexFix : ∀ (k n : Nat), n < 16 ^ k →
    List.replicate (k - (hexDigits n n).length) 48 ++ hexDigits n n =
      hexFix k n := by
  intro k
  induction k with
  | zero =>
    intro n hn
    have hn0 : n = 0 := by simpa using hn
    subst hn0
    simp [hexDigits, hexFix]
  | succ m ih =>
    intro n hn
    by_cases hn0 : n = 0
    · subst hn0
      have hz : hexDigits 0 0 = ([] : List Nat) := rfl
      have ihz := ih 0 (by positivity)
      rw [hz] at ihz ⊢
      simp only [List.length_nil, Nat.sub_zero, List.append_nil] at ihz ⊢
      simp only [hexFix, Nat.zero_div, Nat.zero_mod]
      rw [← ihz, show hexDigitChar 0 = 48 from rfl, ← List.replicate_succ']
    · have hrec : hexDigits n n =
          hexDigits (n / 16) (n / 16) ++ [hexDigitChar (n % 16)] := by
        obtain ⟨p, rfl⟩ : ∃ p, n = p + 1 := ⟨n - 1, by omega⟩
        simp only [hexDigits, if_neg hn0]
        rw [hexDigits_fuel p ((p + 1) / 16) ((p + 1) / 16) (by omega)
          (le_refl _)]
      have hdiv : n / 16 < 16 ^ m := by
        rw [Nat.div_lt_iff_lt_mul (by norm_num)]
        calc n < 16 ^ (m + 1) := hn
          _ = 16 ^ m * 16 := by rw [pow_succ]
      have ihd := ih (n / 16) hdiv
      rw [hrec]
      simp only [List.length_append, List.length_cons, List.length_nil]
      rw [show m + 1 - ((hexDigits (n / 16) (n / 16)).length + (0 + 1)) =
        m - (hexDigits (n / 16) (n / 16)).length from by omega]
      rw [← List.append_assoc, ihd]
      simp only [hexFix]

theorem hex8_eq_hexFix (n : Nat) (h : n < 4294967296) :
    hex8 n = hexFix 8 n := by
  unfold hex8
  exact hex8_pad_eq_hexFix 8 n
    (by rw [show (16 : Nat) ^ 8 = 4294967296 from by norm_num]; exact h)

theorem dumpRecordHeader_eq_fix (ino mode uid gid fsz rM rm ns : Nat)
    (h1 : ino < 4294967296) (h2 : mode < 4294967296) (h3 : uid < 4294967296)
    (h4 : gid < 4294967296) (h5 : fsz < 4294967296) (h6 : rM < 4294967296)
    (h7 : rm < 4294967296) (h8 : ns < 4294967296) :
    dumpRecordHeader ino mode uid gid fsz rM rm ns =
      hdrFix ino mode uid gid fsz rM rm ns := by
  unfold dumpRecordHeader hdrFix
  congr 1
  simp only [List.map_cons, List.map_nil]
  rw [hex8_eq_hexFix _ h1, hex8_eq_hexFix _ h2, hex8_eq_hexFix _ h3,
    hex8_eq_hexFix _ h4, hex8_eq_hexFix _ h5, hex8_eq_hexFix _ h6,
    hex8_eq_hexFix _ h7, hex8_eq_hexFix _ h8,
    hex8_eq_hexFix 1 (by norm_num), hex8_eq_hexFix 0 (by norm_num)]

theorem hexVal_hexDigitChar (d : Nat) (hd : d < 16) :
    hexVal (hexDigitChar d) = some d := by
  unfold hexDigitChar hexVal
  split_ifs <;>
    first
      | (simp only [Option.some.injEq]; omega)
      | (exfalso; omega)

theorem hexAcc_append (xs ys : List Nat) :
    ∀ acc, hexAcc (xs ++ ys) acc =
      match hexAcc xs acc with
      | some a => hexAcc ys a
      | none => none := by
  induction xs with
  | nil => intro acc; rfl
  | cons c xs ih =>
    intro acc
    simp only [List.cons_append, hexAcc]
    cases hexVal c with
    | none => rfl
    | some v => exact ih (acc * 16 + v)

theorem hexAcc_hexFix : ∀ (k n acc : Nat), n < 16 ^ k →
    hexAcc (hexFix k n) acc = some (acc * 16 ^ k + n) := by
  intro k
  induction k with
  | zero =>
    intro n acc hn
    have : n = 0 := by simpa using hn
    subst this
    simp [hexFix, hexAcc]
  | succ m ih =>
    intro n acc hn
    have hdiv : n / 16 < 16 ^ m := by
      rw [Nat.div_lt_iff_lt_mul (by norm_num)]
      calc n < 16 ^ (m + 1) := hn
        _ = 16 ^ m * 16 := by rw [pow_succ]
    simp only [hexFix, hexAcc_append, ih (n / 16) acc hdiv]
    simp only [hexAcc, hexVal_hexDigitChar (n % 16) (Nat.mod_lt n (by norm_num)),
      Option.some.injEq]
    have hmod := Nat.div_add_mod n 16
    rw [pow_succ]
    ring_nf
    omega

theorem x8u_hexFix8 (n : Nat) (h : n < 4294967296) :
    x8u (hexFix 8 n) = some n := by
  unfold x8u
  rw [if_pos (hexFix_length 8 n)]
  have h16 : n < 16 ^ 8 := by norm_num; exact h
  rw [hexAcc_hexFix 8 n 0 h16]
  simp

theorem trimTrailingZeros_append_zero (name : List Nat)
    (h : name.getLast? ≠ some 0) :
    trimTrailingZeros (name ++ [0]) = name := by
  unfold trimTrailingZeros
  rw [List.reverse_append]
  simp only [List.reverse_cons, List.reverse_nil, List.nil_append,
    List.singleton_append, List.dropWhile_cons]
  simp only [beq_self_eq_true, if_true]
  cases hrev : name.reverse with
  | nil =>
    have : name = [] := by simpa using congrArg List.reverse hrev
    simp [this]
  | cons c cs =>
    have hc : c ≠ 0 := by
      intro hc0
      apply h
      rw [← List.head?_reverse, hrev, hc0]
      rfl
    simp only [List.dropWhile_cons, beq_iff_eq, if_neg hc]
    rw [← hrev, List.reverse_reverse]

theorem flatten_hexFix_length (fs : List Nat) :
    ((fs.map (hexFix 8)).flatten).length = 8 * fs.length := by
  induction fs with
  | nil => rfl
  | cons f fs ih =>
    simp only [List.map_cons, List.flatten_cons, List.length_append, ih,
      hexFix_length, List.length_cons]
    ring

theorem hdrFix_length (a b c d e f g h : Nat) :
    (hdrFix a b c d e f g h).length = 110 := by
  simp only [hdrFix, List.length_append, flatten_hexFix_length,
    List.length_cons, List.length_nil]
  rw [show (s2b "070701").length = 6 from by decide]

theorem drop_append_chunk (x l : List Nat) (j : Nat) :
    (x ++ l).drop (x.length + j) = l.drop j := by
  induction x with
  | nil => simp
  | cons c cs ih =>
    rw [List.length_cons, List.cons_append,
      show cs.length + 1 + j = cs.length + j + 1 by ring,
      List.drop_succ_cons]
    exact ih

theorem flatten_drop_chunks : ∀ (t : Nat) (fs : List Nat),
    ((fs.map (hexFix 8)).flatten).drop (8 * t) =
      (((fs.drop t).map (hexFix 8)).flatten) := by
  intro t
  induction t with
  | zero => intro fs; simp
  | succ m ih =>
    intro fs
    cases fs with
    | nil => simp
    | cons f fs =>
      simp only [List.map_cons, List.flatten_cons, List.drop_succ_cons]
      rw [show 8 * (m + 1) = 8 + 8 * m by ring]
      rw [show (8 : Nat) + 8 * m = (hexFix 8 f).length + 8 * m by
        rw [hexFix_length]]
      rw [drop_append_chunk]
      exact ih fs

theorem hdrFix_take6 (a b c d e f g h : Nat) :
    (hdrFix a b c d e f g h).take 6 = s2b "070701" :=
  List.take_left' (by decide)

theorem hdrFix_field (ino mode uid gid fsz rM rm ns : Nat) (t v : Nat)
    (hv : (([ino, mode, uid, gid, 1, 0, fsz, 0, 0, rM, rm, ns, 0].drop t) :
      List Nat).head? = some v) :
    ((hdrFix ino mode uid gid fsz rM rm ns).drop (6 + 8 * t)).take 8 =
      hexFix 8 v := by
  unfold hdrFix
  have h6 : (6 : Nat) + 8 * t = (s2b "070701").length + 8 * t := by
    rw [show (s2b "070701").length = 6 from by decide]
  rw [h6, drop_append_chunk, flatten_drop_chunks]
  cases hd : ([ino, mode, uid, gid, 1, 0, fsz, 0, 0, rM, rm, ns, 0].drop t :
      List Nat) with
  | nil => rw [hd] at hv; exact absurd hv (by simp)
  | cons w ws =>
    rw [hd] at hv
    simp only [List.head?_cons, Option.some.injEq] at hv
    subst hv
    simp only [hd, List.map_cons, List.flatten_cons]
    exact List.take_left' (hexFix_length _ _)

theorem align4_dvd (x : Nat) : 4 ∣ align4 x := by
  unfold align4
  exact Dvd.intro ((x + 3) / 4) (Nat.mul_comm _ _)

theorem isEmpty_false_of_pos (l : List Nat) (h : 0 < l.length) :
    l.isEmpty = false := by
  cases l with
  | nil => simp at h
  | cons a t => rfl

theorem alistLookup_insert (E : List (List Nat × CpioEntry))
    (k : List Nat) (v : CpioEntry) (n : List Nat) :
    alistLookup (alistInsert E k v) n =
      if k = n then some v else alistLookup E n := by
  induction E with
  | nil => simp [alistInsert, alistLookup]
  | cons q rest ih =>
    by_cases hq : q.1 = k
    · simp only [alistInsert, if_pos hq, alistLookup]
      by_cases hkn : k = n
      · rw [if_pos hkn, if_pos hkn]
      · rw [if_neg hkn, if_neg hkn, if_neg (by rw [hq]; exact hkn)]
    · simp only [alistInsert, if_neg hq, alistLookup]
      by_cases hqn : q.1 = n
      · rw [if_pos hqn, if_neg (by rw [← hqn]; exact fun hc => hq hc.symm),
          if_pos hqn]
      · rw [if_neg hqn, if_neg hqn, ih]

theorem foldl_insert_lookup (f : List Nat → CpioEntry) :
    ∀ (ks : List (List Nat)) (E : List (List Nat × CpioEntry)) (n : List Nat),
      alistLookup (ks.foldl (fun E k => alistInsert E k (f k)) E) n =
        if n ∈ ks then some (f n) else alistLookup E n := by
  intro ks
  induction ks with
  | nil => intro E n; simp
  | cons k ks ih =>
    intro E n
    simp only [List.foldl_cons]
    rw [ih]
    by_cases hn : n ∈ ks
    · rw [if_pos hn, if_pos (List.mem_cons_of_mem k hn)]
    · rw [if_neg hn, alistLookup_insert]
      by_cases hkn : k = n
      · rw [if_pos hkn, if_pos (by rw [hkn]; exact List.mem_cons_self n ks),
          hkn]
      · rw [if_neg hkn,
          if_neg (by simp [List.mem_cons, hn]; exact fun hc => hkn hc.symm)]

theorem dumpLoop_length_ge (c : Cpio) :
    ∀ (ks : List (List Nat)) (inode pos : Nat),
      ks.length ≤ (dumpLoop c ks inode pos).length := by
  intro ks
  induction ks with
  | nil => intro inode pos; simp
  | cons k ks ih =>
    intro inode pos
    simp only [dumpLoop, List.length_append, List.length_cons]
    have := ih (inode + 1)
      (align4 (align4 (pos + 110 + (k.length + 1)) +
        ((alistLookup c.entries k).getD default).data.length))
    omega

theorem dumpLoop_congr (c c₂ : Cpio) :
    ∀ (ks : List (List Nat)) (inode pos : Nat),
      (∀ n ∈ ks, alistLookup c₂.entries n = alistLookup c.entries n) →
      dumpLoop c₂ ks inode pos = dumpLoop c ks inode pos := by
  intro ks
  induction ks with
  | nil => intro inode pos _; rfl
  | cons k ks ih =>
    intro inode pos hks
    simp only [dumpLoop, hks k (List.mem_cons_self k ks)]
    rw [ih _ _ fun n hn => hks n (List.mem_cons_of_mem k hn)]

theorem parse_trailer (c : Cpio) (fuel inode pos : Nat)
    (accK : List (List Nat)) (accE : List (List Nat × CpioEntry))
    (hfuel : 1 ≤ fuel) (hinode : inode < 4294967296) :
    parseLoop fuel (dumpLoop c [] inode pos) pos accK accE =
      .ok (accK, accE) := by
  obtain ⟨f, rfl⟩ : ∃ f, fuel = f + 1 := ⟨fuel - 1, by omega⟩
  simp only [dumpLoop]
  rw [dumpRecordHeader_eq_fix inode 0o755 0 0 0 0 0 11 hinode (by norm_num)
    (by norm_num) (by norm_num) (by norm_num) (by norm_num) (by norm_num)
    (by norm_num)]
  set TH := hdrFix inode 0o755 0 0 0 0 0 11 with hTH
  set padT := align4 (pos + 121) - (pos + 121) with hpadT
  set rest := TH ++ (s2b "TRAILER!!!" ++ ([0] ++ List.replicate padT 0))
    with hrest
  have hlen : rest.length = 121 + padT := by
    rw [hrest, hTH]
    simp only [List.length_append, hdrFix_length,
      List.length_replicate, List.length_cons, List.length_nil]
    rw [show (s2b "TRAILER!!!").length = 10 from by decide]
    omega
  have hhdr : rest.take 110 = TH :=
    List.take_left' (hdrFix_length _ _ _ _ _ _ _ _)
  have hns : x8u ((TH.drop 94).take 8) = some 11 := by
    rw [hTH, show (94 : Nat) = 6 + 8 * 11 from rfl,
      hdrFix_field _ _ _ _ _ _ _ _ 11 11 rfl]
    exact x8u_hexFix8 11 (by norm_num)
  have hdrop110 : rest.drop 110 =
      s2b "TRAILER!!!" ++ ([0] ++ List.replicate padT 0) :=
    List.drop_left' (hdrFix_length _ _ _ _ _ _ _ _)
  have hnm : trimTrailingZeros ((rest.drop 110).take 11) = s2b "TRAILER!!!" := by
    rw [hdrop110, ← List.append_assoc,
      List.take_left' (by decide : ((s2b "TRAILER!!!" ++ [0]).length = 11))]
    decide
  simp only [parseLoop]
  rw [if_neg (by rw [isEmpty_false_of_pos rest (by omega)]; simp)]
  rw [if_neg (by omega)]
  rw [hhdr, hns]
  rw [if_neg (by rw [hTH, hdrFix_take6]; exact fun hc => hc rfl)]
  dsimp only
  rw [if_neg (by omega)]
  rw [hnm]
  rw [if_neg (by decide), if_pos rfl]
  rw [show pos + 110 + 11 = pos + 121 from by ring]
  rw [if_neg (by omega)]
  have hdropAll : rest.drop (110 + 11 + (align4 (pos + 121) -
      (pos + 121))) = [] := by
    apply List.drop_eq_nil_of_le
    omega
  rw [hdropAll]
  rfl

theorem parse_dumpLoop (c : Cpio) :
    ∀ (ks : List (List Nat)) (fuel inode pos : Nat)
      (accK : List (List Nat)) (accE : List (List Nat × CpioEntry)),
      (∀ n ∈ ks, n ≠ s2b "." ∧ n ≠ s2b ".." ∧ n ≠ s2b "TRAILER!!!" ∧
        n.getLast? ≠ some 0) →
      (∀ n ∈ ks, ∃ e, alistLookup c.entries n = some e ∧
        e.mode < 4294967296 ∧ e.uid < 4294967296 ∧ e.gid < 4294967296 ∧
        e.rdevMajor < 4294967296 ∧ e.rdevMinor < 4294967296 ∧
        e.data.length < 4294967296 ∧ n.length + 1 < 4294967296) →
      4 ∣ pos →
      ks.length + 1 ≤ fuel →
      inode + ks.length < 4294967296 →
      parseLoop fuel (dumpLoop c ks inode pos) pos accK accE =
        .ok (accK ++ ks,
          ks.foldl (fun E n =>
            alistInsert E n ((alistLookup c.entries n).getD default)) accE) := by
  intro ks
  induction ks with
  | nil =>
    intro fuel inode pos accK accE _ _ _ hfuel hinode
    rw [parse_trailer c fuel inode pos accK accE (by omega)
      (by simpa using hinode)]
    simp
  | cons name ks ih =>
    intro fuel inode pos accK accE hwf hent hpos hfuel hinode
    obtain ⟨f, rfl⟩ : ∃ f, fuel = f + 1 := ⟨fuel - 1, by omega⟩
    obtain ⟨e, he, hm, hu, hg, hrM, hrm, hd, hn⟩ :=
      hent name (List.mem_cons_self name ks)
    obtain ⟨hne1, hne2, hne3, hlast⟩ := hwf name (List.mem_cons_self name ks)
    simp only [dumpLoop, he, Option.getD_some]
    rw [dumpRecordHeader_eq_fix inode e.mode e.uid e.gid e.data.length
      e.rdevMajor e.rdevMinor (name.length + 1)
      (by simp only [List.length_cons] at hinode; omega) hm hu hg hd hrM hrm hn]
    set RH := hdrFix inode e.mode e.uid e.gid e.data.length
      e.rdevMajor e.rdevMinor (name.length + 1) with hRH
    set p1 := pos + 110 + (name.length + 1) with hp1
    set pad1 := align4 p1 - p1 with hpad1
    set p2 := align4 p1 + e.data.length with hp2
    set pad2 := align4 p2 - p2 with hpad2
    set REST := dumpLoop c ks (inode + 1) (align4 p2) with hREST
    set rest := RH ++ (name ++ ([0] ++ (List.replicate pad1 0 ++
      (e.data ++ (List.replicate pad2 0 ++ REST))))) with hrest
    have hRHlen : RH.length = 110 := by
      rw [hRH]; exact hdrFix_length _ _ _ _ _ _ _ _
    have hlen : rest.length =
        110 + (name.length + 1) + pad1 + e.data.length + pad2 + REST.length := by
      rw [hrest]
      simp only [List.length_append, hRHlen, List.length_replicate,
        List.length_cons, List.length_nil]
      omega
    have hhdr : rest.take 110 = RH := by
      rw [hrest]; exact List.take_left' hRHlen
    have hns : x8u ((RH.drop 94).take 8) = some (name.length + 1) := by
      rw [hRH, show (94 : Nat) = 6 + 8 * 11 from rfl,
        hdrFix_field _ _ _ _ _ _ _ _ 11 (name.length + 1) rfl]
      exact x8u_hexFix8 _ hn
    have hmode : x8u ((RH.drop 14).take 8) = some e.mode := by
      rw [hRH, show (14 : Nat) = 6 + 8 * 1 from rfl,
        hdrFix_field _ _ _ _ _ _ _ _ 1 e.mode rfl]
      exact x8u_hexFix8 _ hm
    have huid : x8u ((RH.drop 22).take 8) = some e.uid := by
      rw [hRH, show (22 : Nat) = 6 + 8 * 2 from rfl,
        hdrFix_field _ _ _ _ _ _ _ _ 2 e.uid rfl]
      exact x8u_hexFix8 _ hu
    have hgid : x8u ((RH.drop 30).take 8) = some e.gid := by
      rw [hRH, show (30 : Nat) = 6 + 8 * 3 from rfl,
        hdrFix_field _ _ _ _ _ _ _ _ 3 e.gid rfl]
      exact x8u_hexFix8 _ hg
    have hfsz : x8u ((RH.drop 54).take 8) = some e.data.length := by
      rw [hRH, show (54 : Nat) = 6 + 8 * 6 from rfl,
        hdrFix_field _ _ _ _ _ _ _ _ 6 e.data.length rfl]
      exact x8u_hexFix8 _ hd
    have hrMaj : x8u ((RH.drop 78).take 8) = some e.rdevMajor := by
      rw [hRH, show (78 : Nat) = 6 + 8 * 9 from rfl,
        hdrFix_field _ _ _ _ _ _ _ _ 9 e.rdevMajor rfl]
      exact x8u_hexFix8 _ hrM
    have hrMin : x8u ((RH.drop 86).take 8) = some e.rdevMinor := by
      rw [hRH, show (86 : Nat) = 6 + 8 * 10 from rfl,
        hdrFix_field _ _ _ _ _ _ _ _ 10 e.rdevMinor rfl]
      exact x8u_hexFix8 _ hrm
    have hdrop110 : rest.drop 110 = name ++ ([0] ++ (List.replicate pad1 0 ++
        (e.data ++ (List.replicate pad2 0 ++ REST)))) := by
      rw [hrest]; exact List.drop_left' hRHlen
    have hnm : trimTrailingZeros ((rest.drop 110).take (name.length + 1)) =
        name := by
      rw [hdrop110, ← List.append_assoc,
        List.take_left' (by simp : (name ++ [0]).length = name.length + 1)]
      exact trimTrailingZeros_append_zero name hlast
    have drop_replicate_chunk : ∀ (k : Nat) (l : List Nat),
        (List.replicate k (0 : Nat) ++ l).drop k = l := by
      intro k l
      have h := drop_append_chunk (List.replicate k (0 : Nat)) l 0
      simp only [List.length_replicate, Nat.add_zero, List.drop_zero] at h
      exact h
    have hrestA : rest.drop (110 + (name.length + 1) + pad1) =
        e.data ++ (List.replicate pad2 0 ++ REST) := by
      rw [hrest,
        show 110 + (name.length + 1) + pad1 =
          RH.length + ((name.length + 1) + pad1) from by rw [hRHlen]; ring,
        drop_append_chunk, ← List.append_assoc,
        show (name.length + 1) + pad1 = (name ++ [0]).length + pad1 from by
          simp,
        drop_append_chunk, drop_replicate_chunk]
    have hdropData : (e.data ++ (List.replicate pad2 0 ++ REST)).drop
        (e.data.length + pad2) = REST := by
      rw [show e.data.length + pad2 = e.data.length + pad2 from rfl,
        drop_append_chunk, drop_replicate_chunk]
    simp only [parseLoop]
    rw [if_neg (by rw [isEmpty_false_of_pos rest (by omega)]; simp)]
    rw [if_neg (by omega)]
    rw [hhdr, hns]
    rw [if_neg (by rw [hRH, hdrFix_take6]; exact fun hc => hc rfl)]
    dsimp only
    rw [if_neg (by omega)]
    rw [hnm]
    rw [if_neg (by rintro (hc | hc); exact hne1 hc; exact hne2 hc)]
    rw [if_neg hne3]
    rw [← hp1, ← hpad1, hfsz]
    simp only [Option.getD_some]
    rw [if_neg (by omega)]
    rw [hmode, huid, hgid, hrMaj, hrMin]
    simp only [Option.getD_some]
    rw [hrestA, List.take_left' (rfl : e.data.length = e.data.length),
      ← hp2, ← hpad2, hdropData]
    rw [hREST]
    rw [ih f (inode + 1) (align4 p2) (accK ++ [name]) (alistInsert accE name e)
      (fun n hn' => hwf n (List.mem_cons_of_mem name hn'))
      (fun n hn' => hent n (List.mem_cons_of_mem name hn'))
      (align4_dvd p2) (by simpa using Nat.le_of_succ_le_succ hfuel)
      (by simp only [List.length_cons] at hinode; omega)]
    simp only [List.foldl_cons, he, Option.getD_some, List.append_assoc,
      List.singleton_append]

/-- C4: cpio serialization round-trips.  For every archive whose names
avoid the wire-format-reserved spellings (`.`, `..`, `TRAILER!!!`, and a
trailing NUL byte, which the NUL-terminated name encoding cannot
represent), whose fields fit the eight-hex-digit header columns, and whose
record count keeps the inode counter (which starts at 300000) below `2^32`
so the `%08x`-formatted ino field stays eight digits wide, parsing the
bytes produced by `Dump` succeeds and yields an archive with the same key
sequence and, for each name, the same mode, uid, gid, rdev_major,
rdev_minor and data; moreover serialization is deterministic: any archive
with the same keys and per-name entries dumps to the identical byte
string. -/
theorem c4_dump_parse_roundtrip (c : Cpio)
    (hwf : ∀ n ∈ c.keys, n ≠ s2b "." ∧ n ≠ s2b ".." ∧ n ≠ s2b "TRAILER!!!" ∧
      n.getLast? ≠ some 0)
    (hent : ∀ n ∈ c.keys, ∃ e, alistLookup c.entries n = some e ∧
      e.mode < 4294967296 ∧ e.uid < 4294967296 ∧ e.gid < 4294967296 ∧
      e.rdevMajor < 4294967296 ∧ e.rdevMinor < 4294967296 ∧
      e.data.length < 4294967296 ∧ n.length + 1 < 4294967296)
    (hcount : 300000 + c.keys.length < 4294967296) :
    ∃ c', cpioLoadFromData (cpioDump c) = .ok c' ∧
      c'.keys = c.keys ∧
      (∀ n ∈ c.keys, alistLookup c'.entries n = alistLookup c.entries n) ∧
      (∀ c₂ : Cpio, c₂.keys = c.keys →
        (∀ n ∈ c.keys, alistLookup c₂.entries n = alistLookup c.entries n) →
        cpioDump c₂ = cpioDump c) := by
  have hfuel : c.keys.length + 1 ≤ (cpioDump c).length + 1 := by
    have := dumpLoop_length_ge c c.keys 300000 0
    unfold cpioDump
    omega
  have hparse := parse_dumpLoop c c.keys ((cpioDump c).length + 1) 300000 0
    [] [] hwf hent ⟨0, rfl⟩ hfuel hcount
  refine ⟨⟨c.keys.foldl (fun E n =>
      alistInsert E n ((alistLookup c.entries n).getD default)) [], c.keys⟩,
    ?_, rfl, ?_, ?_⟩
  · show (parseLoop ((cpioDump c).length + 1)
      (dumpLoop c c.keys 300000 0) 0 [] []).map (fun r => Cpio.mk r.2 r.1) = _
    rw [hparse]
    rfl
  · intro n hn
    show alistLookup (c.keys.foldl (fun E n =>
      alistInsert E n ((alistLookup c.entries n).getD default)) []) n = _
    rw [foldl_insert_lookup (fun n => (alistLookup c.entries n).getD default)
      c.keys [] n, if_pos hn]
    obtain ⟨e, he, _⟩ := hent n hn
    rw [he]
    rfl
  · intro c₂ hk hl
    show dumpLoop c₂ c₂.keys 300000 0 = dumpLoop c c.keys 300000 0
    rw [hk]
    exact dumpLoop_congr c c₂ c.keys 300000 0 hl

/-- Witness for `c4_dump_parse_roundtrip` at the archive
`{"a" ↦ regular file "hi"}`. -/
theorem c4_roundtrip_witness :
    ∃ c', cpioLoadFromData
        (cpioDump ⟨[([97], ⟨33188, 0, 0, 0, 0, [104, 105]⟩)], [[97]]⟩) =
        .ok c' ∧
      c'.keys = [[97]] ∧
      (∀ n ∈ ([[97]] : List (List Nat)),
        alistLookup c'.entries n =
          alistLookup [([97], ⟨33188, 0, 0, 0, 0, [104, 105]⟩)] n) ∧
      (∀ c₂ : Cpio, c₂.keys = [[97]] →
        (∀ n ∈ ([[97]] : List (List Nat)),
          alistLookup c₂.entries n =
            alistLookup [([97], ⟨33188, 0, 0, 0, 0, [104, 105]⟩)] n) →
        cpioDump c₂ =
          cpioDump ⟨[([97], ⟨33188, 0, 0, 0, 0, [104, 105]⟩)], [[97]]⟩) :=
  c4_dump_parse_roundtrip ⟨[([97], ⟨33188, 0, 0, 0, 0, [104, 105]⟩)], [[97]]⟩
    (by decide)
    (by
      intro n hn
      simp only [List.mem_singleton] at hn
      subst hn
      exact ⟨⟨33188, 0, 0, 0, 0, [104, 105]⟩, rfl, by norm_num, by norm_num,
        by norm_num, by norm_num, by norm_num, by norm_num, by norm_num⟩)
    (by norm_num)

/-- Witness for `c2_amended_clone_backup_restore` at the archive `{"a"}`. -/
theorem c2_amended_witness :
    (cpioRestore (fun _ => false)
        (cpioBackup ⟨[([97], ⟨0o100644, 0, 0, 0, 0, [120]⟩)], [[97]]⟩ true
          ⟨[([97], ⟨0o100644, 0, 0, 0, 0, [120]⟩)], [[97]]⟩)).entries = [] ∧
    (cpioRestore (fun _ => false)
        (cpioBackup ⟨[([97], ⟨0o100644, 0, 0, 0, 0, [120]⟩)], [[97]]⟩ true
          ⟨[([97], ⟨0o100644, 0, 0, 0, 0, [120]⟩)], [[97]]⟩)).keys = [[97]] :=
  c2_amended_clone_backup_restore
    ⟨[([97], ⟨0o100644, 0, 0, 0, 0, [120]⟩)], [[97]]⟩ (fun _ => false)
    (by simp) (by decide) (by decide)

end Magiskboot
